import Mathlib

/-!
Shallow embedding of the FIFO inventory-costing and offline-sales
synchronization core of the POS application (src/lib/db.ts,
src/lib/offlineDB.ts, src/lib/sync.ts), together with theorems settling
the specification claims about it.

Modelling conventions:
* quantities and prices are `Int` (the source uses JS numbers; all the
  logic is uniform arithmetic on them);
* row identifiers and timestamps are `Nat`; the remote store generates
  batch ids (and their `created_at` insertion stamps) from a counter
  `nextBatchId`, and sale-row ids from `nextSaleId`;
* the remote relational store and the local IndexedDB queue are explicit
  state records threaded through each operation; remote transport errors
  are not modelled (every reachable claim is about the non-transport
  behaviour), so the only errors are the ones the source constructs
  itself.
-/

/-- Errors constructed by the source code itself (db.ts / supabase
`.single()` misses). -/
inductive DbErr where
  | insufficientBatchStock
  | insufficientStockForItems
  | failedToConsume
  | singleRowNotFound
deriving DecidableEq, Repr

/-- Error message attached by db.ts to each error value. -/
def DbErr.message : DbErr → String
  | .insufficientBatchStock => "Insufficient batch stock"
  | .insufficientStockForItems => "Insufficient stock for one or more items"
  | .failedToConsume => "Failed to consume batches"
  | .singleRowNotFound => "JSON object requested, multiple (or no) rows returned"

/-- db.ts `DbProduct` (the fields the core logic touches). -/
structure DbProduct where
  id : Nat
  price : Int
  stock : Int
deriving DecidableEq, Repr

/-- db.ts `ProductBatch`. -/
structure ProductBatch where
  id : Nat
  product_id : Nat
  bought_price : Int
  selling_price : Int
  quantity : Int
  remaining_quantity : Int
  created_at : Nat
deriving DecidableEq, Repr

/-- A committed remote `sales` row (sync.ts insertPayload). -/
structure SaleRow where
  id : Nat
  total : Int
  payment_method : String
  cash_received : Option Int
  change : Option Int
  cogs : Int
  items_count : Int
deriving DecidableEq, Repr

/-- A committed remote `sale_items` row (sync.ts rows map). -/
structure SaleItemRow where
  sale_id : Nat
  product_id : Nat
  product_name : String
  category : Option String
  unit_price : Int
  quantity : Int
  line_total : Int
  line_cogs : Int
deriving DecidableEq, Repr

/-- The remote relational store: products, purchase batches, committed
sales and line items, plus the id counters the store uses to generate
fresh row ids (`created_at` of a new batch is its insertion stamp). -/
structure RemoteDB where
  products : List DbProduct
  batches : List ProductBatch
  sales : List SaleRow
  sale_items : List SaleItemRow
  nextBatchId : Nat
  nextSaleId : Nat
deriving DecidableEq, Repr

/-- The FIFO ordering used by every batch query:
ascending `(created_at, id)`. -/
def FifoLe (a b : ProductBatch) : Prop :=
  a.created_at < b.created_at ∨ (a.created_at = b.created_at ∧ a.id ≤ b.id)

instance : DecidableRel FifoLe := fun a b => by
  unfold FifoLe; infer_instance

instance : IsTotal ProductBatch FifoLe where
  total a b := by
    rcases Nat.lt_trichotomy a.created_at b.created_at with h | h | h
    · exact Or.inl (Or.inl h)
    · rcases Nat.le_total a.id b.id with h2 | h2
      · exact Or.inl (Or.inr ⟨h, h2⟩)
      · exact Or.inr (Or.inr ⟨h.symm, h2⟩)
    · exact Or.inr (Or.inl h)

instance : IsTrans ProductBatch FifoLe where
  trans a b c hab hbc := by
    rcases hab with h1 | ⟨e1, l1⟩
    · rcases hbc with h2 | ⟨e2, _⟩
      · exact Or.inl (h1.trans h2)
      · exact Or.inl (e2 ▸ h1)
    · rcases hbc with h2 | ⟨e2, l2⟩
      · exact Or.inl (e1 ▸ h2)
      · exact Or.inr ⟨e1.trans e2, l1.trans l2⟩

/-- db.ts: the open-batch query shared by `quoteSaleBatches`,
`consumeBatchesFIFO` and `getNextBatchPrice`: batches of the product with
`remaining_quantity > 0`, ordered ascending by `(created_at, id)`. -/
def listOpenBatches (db : RemoteDB) (productId : Nat) : List ProductBatch :=
  (db.batches.filter
    (fun b => b.product_id == productId && decide (0 < b.remaining_quantity))).insertionSort FifoLe

/-- db.ts `quoteSaleBatches` inner loop: walk the ordered open batches,
accumulating `take * selling_price`, stopping when nothing is left to
take. -/
def quoteWalk : List ProductBatch → Int → Int → Int
  | [], _, acc => acc
  | b :: rest, remaining, acc =>
    if remaining ≤ 0 then acc
    else
      let take := min b.remaining_quantity remaining
      quoteWalk rest (remaining - take) (acc + take * b.selling_price)

/-- db.ts `quoteSaleBatches`: read-only FIFO revenue quote over a list of
`(productId, quantity)` items; items with non-positive quantity are
skipped; a shortfall still contributes the computed revenue. -/
def quoteSaleBatches (db : RemoteDB) (items : List (Nat × Int)) : Int :=
  items.foldl
    (fun totalRevenue it =>
      if it.2 ≤ 0 then totalRevenue
      else totalRevenue + quoteWalk (listOpenBatches db it.1) it.2 0)
    0

/-- db.ts `consumeBatchesFIFO` loop body: walk the ordered open batches
computing the still-needed quantity, cogs, revenue and the list of
`(batch id, new remaining_quantity)` updates. -/
def consumeWalk :
    List ProductBatch → Int → Int → Int → List (Nat × Int) →
      Int × Int × Int × List (Nat × Int)
  | [], remaining, cogs, revenue, updates => (remaining, cogs, revenue, updates)
  | b :: rest, remaining, cogs, revenue, updates =>
    if remaining ≤ 0 then (remaining, cogs, revenue, updates)
    else
      let take := min b.remaining_quantity remaining
      let newRemaining := b.remaining_quantity - take
      consumeWalk rest (remaining - take) (cogs + take * b.bought_price)
        (revenue + take * b.selling_price) (updates ++ [(b.id, newRemaining)])

/-- Remote update of one batch row by id:
set the remaining quantity of every batch row whose id matches. -/
def updateBatchRemaining (db : RemoteDB) (batchId : Nat) (newRemaining : Int) : RemoteDB :=
  { db with
    batches := db.batches.map
      (fun b => if b.id == batchId then { b with remaining_quantity := newRemaining } else b) }

/-- The `for (const u of updates)` apply loop of `consumeBatchesFIFO`. -/
def applyUpdates (db : RemoteDB) : List (Nat × Int) → RemoteDB
  | [] => db
  | u :: rest => applyUpdates (updateBatchRemaining db u.1 u.2) rest

/-- Result record of `consumeBatchesFIFO`. -/
structure ConsumeResult where
  consumed : Int
  cogs : Int
  revenue : Int
  error : Option DbErr
deriving DecidableEq, Repr

/-- db.ts `consumeBatchesFIFO`: non-positive requests return immediately;
otherwise walk open batches FIFO; if the need is not fully met, return the
already-computed totals with an insufficient-stock error WITHOUT applying
any update; otherwise apply every update and report success. -/
def consumeBatchesFIFO (db : RemoteDB) (productId : Nat) (quantity : Int) :
    ConsumeResult × RemoteDB :=
  if quantity ≤ 0 then ({ consumed := 0, cogs := 0, revenue := 0, error := none }, db)
  else
    let (remaining, cogs, revenue, updates) :=
      consumeWalk (listOpenBatches db productId) quantity 0 0 []
    if 0 < remaining then
      ({ consumed := quantity - remaining, cogs := cogs, revenue := revenue,
         error := some .insufficientBatchStock }, db)
    else
      ({ consumed := quantity, cogs := cogs, revenue := revenue, error := none },
        applyUpdates db updates)

/-- db.ts `getProductStock`: sum of `remaining_quantity` over ALL batch
rows of the product. -/
def getProductStock (db : RemoteDB) (productId : Nat) : Int :=
  ((db.batches.filter (fun b => b.product_id == productId)).map
    (fun b => b.remaining_quantity)).sum

/-- db.ts `updateProductStockDelta`: select the product row (`.single()`,
failing when it is absent), then write back `stock + delta`. -/
def updateProductStockDelta (db : RemoteDB) (productId : Nat) (delta : Int) :
    RemoteDB × Option DbErr :=
  match db.products.find? (fun p => p.id == productId) with
  | none => (db, some .singleRowNotFound)
  | some prod =>
    let newStock := prod.stock + delta
    ({ db with
       products := db.products.map
         (fun p => if p.id == productId then { p with stock := newStock } else p) },
      none)

/-- db.ts `deleteEmptyBatches`: delete every batch row of the product with
`remaining_quantity = 0`. -/
def deleteEmptyBatches (db : RemoteDB) (productId : Nat) : RemoteDB :=
  { db with
    batches := db.batches.filter
      (fun b => !(b.product_id == productId && b.remaining_quantity == 0)) }

/-- db.ts `SaleConsumeDetail`. -/
structure SaleConsumeDetail where
  productId : Nat
  quantity : Int
  cogs : Int
  revenue : Int
deriving DecidableEq, Repr

/-- Result record of `processSaleBatches`; the early-return objects of the
source carry no `details` field, modelled as `[]`. -/
structure SaleResult where
  cogs : Int
  revenue : Int
  details : List SaleConsumeDetail
  error : Option DbErr
deriving DecidableEq, Repr

/-- db.ts `processSaleBatches` consumption loop: consume each item FIFO,
aborting at the first failure with the totals accumulated so far (and the
state as mutated so far); on per-item success add the totals, push the
detail, decrement the product's cached stock and best-effort delete its
empty batches. -/
def processLoop (db : RemoteDB) :
    List (Nat × Int) → Int → Int → List SaleConsumeDetail → SaleResult × RemoteDB
  | [], totalCogs, totalRevenue, details =>
    ({ cogs := totalCogs, revenue := totalRevenue, details := details, error := none }, db)
  | it :: rest, totalCogs, totalRevenue, details =>
    let (r, db1) := consumeBatchesFIFO db it.1 it.2
    if r.error.isSome || r.consumed != it.2 then
      ({ cogs := totalCogs, revenue := totalRevenue, details := [],
         error := some (r.error.getD .failedToConsume) }, db1)
    else
      let totalCogs := totalCogs + r.cogs
      let totalRevenue := totalRevenue + r.revenue
      let details := details ++ [⟨it.1, it.2, r.cogs, r.revenue⟩]
      let (db2, updErr) := updateProductStockDelta db1 it.1 (-it.2)
      match updErr with
      | some e =>
        ({ cogs := totalCogs, revenue := totalRevenue, details := [], error := some e }, db2)
      | none => processLoop (deleteEmptyBatches db2 it.1) rest totalCogs totalRevenue details

/-- db.ts `processSaleBatches`: first validate every item's quantity
against the product's ledger stock sum (against the unmutated state),
then run the consumption loop. -/
def processSaleBatches (db : RemoteDB) (items : List (Nat × Int)) : SaleResult × RemoteDB :=
  if items.any (fun it => decide (getProductStock db it.1 < it.2)) then
    ({ cogs := 0, revenue := 0, details := [], error := some .insufficientStockForItems }, db)
  else
    processLoop db items 0 0 []

/-- db.ts `NewBatchInput`. -/
structure NewBatchInput where
  product_id : Nat
  bought_price : Int
  selling_price : Int
  quantity : Int
  remaining_quantity : Option Int
deriving DecidableEq, Repr

/-- db.ts `createProductBatch`: insert a batch row whose
`remaining_quantity` defaults to `quantity`; the store generates the id
and the `created_at` stamp; no input validation is performed. -/
def createProductBatch (db : RemoteDB) (input : NewBatchInput) :
    (Option ProductBatch × Option DbErr) × RemoteDB :=
  let b : ProductBatch :=
    { id := db.nextBatchId
      product_id := input.product_id
      bought_price := input.bought_price
      selling_price := input.selling_price
      quantity := input.quantity
      remaining_quantity := input.remaining_quantity.getD input.quantity
      created_at := db.nextBatchId }
  ((some b, none), { db with batches := db.batches ++ [b], nextBatchId := db.nextBatchId + 1 })

/-- db.ts `addStockBatch`: create a batch for the product, then read the
product row (`.single()`) and write back `stock + quantity`. -/
def addStockBatch (db : RemoteDB) (productId : Nat) (boughtPrice quantity sellingPrice : Int) :
    (Option ProductBatch × Option DbErr) × RemoteDB :=
  let ((batch, _), db1) := createProductBatch db
    { product_id := productId, bought_price := boughtPrice,
      selling_price := sellingPrice, quantity := quantity, remaining_quantity := none }
  match db1.products.find? (fun p => p.id == productId) with
  | none => ((batch, some .singleRowNotFound), db1)
  | some prod =>
    let newStock := prod.stock + quantity
    ((batch, none),
      { db1 with
        products := db1.products.map
          (fun p => if p.id == productId then { p with stock := newStock } else p) })

/-! ### offlineDB.ts: the local durable queue -/

/-- offlineDB.ts `QueuedSaleStatus`. -/
inductive QueuedSaleStatus where
  | queued
  | syncing
  | done
  | failed
deriving DecidableEq, Repr

/-- offlineDB.ts `QueuedSale`; `status_updated_at` is an epoch-ms stamp
(`none` = field absent; parsing an absent field yields 0 in the source). -/
structure QueuedSale where
  id : Nat
  created_at : Nat
  subtotal : Int
  total : Int
  payment_method : String
  cash_received : Option Int
  change : Option Int
  items_count : Int
  status : QueuedSaleStatus
  error : Option String
  status_updated_at : Option Nat
deriving DecidableEq, Repr

/-- offlineDB.ts `QueuedSaleItem`. -/
structure QueuedSaleItem where
  id : Nat
  sale_id : Nat
  product_id : Nat
  product_name : String
  category : Option String
  unit_price : Int
  quantity : Int
  line_total : Int
deriving DecidableEq, Repr

/-- The local IndexedDB stores (queued_sales and queued_sale_items). -/
structure LocalDB where
  sales : List QueuedSale
  items : List QueuedSaleItem
deriving DecidableEq, Repr

/-- offlineDB.ts `listQueuedSales`: every sale paired with the items whose
`sale_id` points at it. -/
def listQueuedSales (l : LocalDB) : List (QueuedSale × List QueuedSaleItem) :=
  l.sales.map (fun s => (s, l.items.filter (fun i => i.sale_id == s.id)))

/-- offlineDB.ts `setSaleStatus`: look the sale up by id (a miss is a
no-op), set the status, replace the error (absent argument clears it) and
stamp `status_updated_at` with the current time. -/
def setSaleStatus (l : LocalDB) (id : Nat) (status : QueuedSaleStatus)
    (error : Option String) (now : Nat) : LocalDB :=
  { l with
    sales := l.sales.map
      (fun s =>
        if s.id == id then
          { s with status := status, error := error, status_updated_at := some now }
        else s) }

/-- offlineDB.ts `deleteQueuedSale`: remove the sale row and every item
row whose `sale_id` points at it. -/
def deleteQueuedSale (l : LocalDB) (id : Nat) : LocalDB :=
  { sales := l.sales.filter (fun s => !(s.id == id)),
    items := l.items.filter (fun i => !(i.sale_id == id)) }

/-- offlineDB.ts `resetStaleSyncing` cursor body for one entry: a
`syncing` entry whose parsed `status_updated_at` is 0/absent, or older
than the threshold, is forced back to `queued` with a fresh stamp, keeping
a non-empty existing error and otherwise recording the reset message;
every other entry is left as it is. -/
def resetEntry (now : Nat) (thresholdMs : Int) (s : QueuedSale) : QueuedSale :=
  if s.status = .syncing then
    let updated : Nat := s.status_updated_at.getD 0
    if updated = 0 ∨ thresholdMs < (now : Int) - (updated : Int) then
      { s with
        status := .queued
        status_updated_at := some now
        error := some (match s.error with
          | some e => if e = "" then "Reset stale syncing" else e
          | none => "Reset stale syncing") }
    else s
  else s

/-- offlineDB.ts `resetStaleSyncing`: run the cursor body over every
stored sale (the cursor only visits `syncing` entries; visiting all and
leaving non-`syncing` ones unchanged is the same function). -/
def resetStaleSyncing (l : LocalDB) (now : Nat) (thresholdMs : Int) : LocalDB :=
  { l with sales := l.sales.map (resetEntry now thresholdMs) }

/-! ### sync.ts: the synchronization driver -/

/-- sync.ts `syncQueuedSales` loop body for one snapshot row: skip rows
not matching the target and rows whose status is not `queued`/`failed`;
otherwise mark `syncing`, consume FIFO against the current remote state;
on failure mark `failed` with the error and move on; on success insert the
remote sale row and its line items (unit prices and line totals from the
enqueue-time snapshot, per-line cogs looked up in the fresh consumption
details), mark `done`, then delete the queue entry. -/
def syncStep (target : Option Nat) (now : Nat) (st : RemoteDB × LocalDB)
    (row : QueuedSale × List QueuedSaleItem) : RemoteDB × LocalDB :=
  let sale := row.1
  let items := row.2
  if target.isSome && (target != some sale.id) then st
  else if sale.status ≠ .queued ∧ sale.status ≠ .failed then st
  else
    let l1 := setSaleStatus st.2 sale.id .syncing none now
    let fifoItems := items.map (fun it => (it.product_id, it.quantity))
    let (res, remote1) := processSaleBatches st.1 fifoItems
    match res.error with
    | some e => (remote1, setSaleStatus l1 sale.id .failed (some e.message) now)
    | none =>
      let saleId := remote1.nextSaleId
      let payload : SaleRow :=
        { id := saleId
          total := sale.total
          payment_method := sale.payment_method
          cash_received := sale.cash_received
          change := sale.change
          cogs := res.cogs
          items_count :=
            if sale.items_count = 0 then (items.map (fun it => it.quantity)).sum
            else sale.items_count }
      let rows : List SaleItemRow := items.map
        (fun it =>
          { sale_id := saleId
            product_id := it.product_id
            product_name := it.product_name
            category := it.category
            unit_price := it.unit_price
            quantity := it.quantity
            line_total := it.line_total
            line_cogs :=
              ((res.details.find? (fun d => d.productId == it.product_id)).map
                (fun d => d.cogs)).getD 0 })
      let remote2 :=
        { remote1 with
          sales := remote1.sales ++ [payload]
          sale_items := remote1.sale_items ++ rows
          nextSaleId := saleId + 1 }
      let l2 := setSaleStatus l1 sale.id .done none now
      (remote2, deleteQueuedSale l2 sale.id)

/-- sync.ts `syncQueuedSales`: snapshot the queue once and run the loop
body over every snapshot row, threading remote and local state. -/
def syncQueuedSales (remote : RemoteDB) (loc : LocalDB) (target : Option Nat)
    (now : Nat) : RemoteDB × LocalDB :=
  (listQueuedSales loc).foldl (syncStep target now) (remote, loc)

/-! ### Spec-side definitions

`specTakes` is the walk of the specification text: take
`min(batch.remaining_quantity, stillNeeded)` from each open batch in FIFO
order, stopping when nothing is still needed or the batches are
exhausted. -/

/-- The (batch, take) pairs of the FIFO walk described by the spec. -/
def specTakes : List ProductBatch → Int → List (ProductBatch × Int)
  | [], _ => []
  | b :: rest, need =>
    if need ≤ 0 then []
    else
      let take := min b.remaining_quantity need
      (b, take) :: specTakes rest (need - take)

/-- Total quantity taken by a walk. -/
def takesTotal (ts : List (ProductBatch × Int)) : Int :=
  (ts.map (fun p => p.2)).sum

/-- Cost of goods sold accumulated by a walk: take times bought price. -/
def takesCogs (ts : List (ProductBatch × Int)) : Int :=
  (ts.map (fun p => p.2 * p.1.bought_price)).sum

/-- Revenue accumulated by a walk: take times selling price. -/
def takesRevenue (ts : List (ProductBatch × Int)) : Int :=
  (ts.map (fun p => p.2 * p.1.selling_price)).sum

/-- Sum of the open (positive) remaining quantities of a product. -/
def openStock (db : RemoteDB) (productId : Nat) : Int :=
  ((listOpenBatches db productId).map (fun b => b.remaining_quantity)).sum

/-- The worked ledger of the specification example: one product with two
batches, (created_at=1, qty=5, cost=10) and (created_at=2, qty=5,
cost=20). -/
def exDB : RemoteDB :=
  { products := [⟨1, 15, 10⟩],
    batches := [⟨1, 1, 10, 15, 5, 5, 1⟩, ⟨2, 1, 20, 25, 5, 5, 2⟩],
    sales := [], sale_items := [], nextBatchId := 3, nextSaleId := 0 }

/-! ### Lemmas about the FIFO walk -/

lemma specTakes_nonpos {bs : List ProductBatch} {need : Int} (h : need ≤ 0) :
    specTakes bs need = [] := by
  cases bs with
  | nil => rfl
  | cons b rest => simp [specTakes, h]

lemma consumeWalk_eq_spec (bs : List ProductBatch) :
    ∀ (rem cogs rev : Int) (us : List (Nat × Int)),
      consumeWalk bs rem cogs rev us =
        (rem - takesTotal (specTakes bs rem),
         cogs + takesCogs (specTakes bs rem),
         rev + takesRevenue (specTakes bs rem),
         us ++ (specTakes bs rem).map (fun p => (p.1.id, p.1.remaining_quantity - p.2))) := by
  induction bs with
  | nil =>
    intro rem cogs rev us
    simp [consumeWalk, specTakes, takesTotal, takesCogs, takesRevenue]
  | cons b rest ih =>
    intro rem cogs rev us
    by_cases h : rem ≤ 0
    · simp [consumeWalk, specTakes, h, takesTotal, takesCogs, takesRevenue]
    · simp only [consumeWalk, specTakes, if_neg h]
      rw [ih]
      simp only [takesTotal, takesCogs, takesRevenue, List.map_cons, List.sum_cons,
        List.append_assoc, List.singleton_append, Prod.mk.injEq]
      exact ⟨by ring, by ring, by ring, trivial⟩

lemma quoteWalk_eq_spec (bs : List ProductBatch) :
    ∀ (rem acc : Int), quoteWalk bs rem acc = acc + takesRevenue (specTakes bs rem) := by
  induction bs with
  | nil => intro rem acc; simp [quoteWalk, specTakes, takesRevenue]
  | cons b rest ih =>
    intro rem acc
    by_cases h : rem ≤ 0
    · simp [quoteWalk, specTakes, h, takesRevenue]
    · simp only [quoteWalk, specTakes, if_neg h]
      rw [ih]
      simp only [takesRevenue, List.map_cons, List.sum_cons]
      ring

lemma mem_listOpenBatches {db : RemoteDB} {pid : Nat} {b : ProductBatch} :
    b ∈ listOpenBatches db pid ↔
      b ∈ db.batches ∧ b.product_id = pid ∧ 0 < b.remaining_quantity := by
  unfold listOpenBatches
  rw [(List.perm_insertionSort FifoLe _).mem_iff]
  simp [List.mem_filter, and_assoc]

lemma sorted_listOpenBatches (db : RemoteDB) (pid : Nat) :
    (listOpenBatches db pid).Sorted FifoLe :=
  List.sorted_insertionSort FifoLe _

lemma consumeBatchesFIFO_cogs (db : RemoteDB) (pid : Nat) (qty : Int) :
    (consumeBatchesFIFO db pid qty).1.cogs =
      takesCogs (specTakes (listOpenBatches db pid) qty) := by
  unfold consumeBatchesFIFO
  by_cases h : qty ≤ 0
  · simp [h, specTakes_nonpos h, takesCogs]
  · rw [if_neg h, consumeWalk_eq_spec]
    by_cases h2 : 0 < qty - takesTotal (specTakes (listOpenBatches db pid) qty) <;>
      simp [h2]

lemma consumeBatchesFIFO_revenue (db : RemoteDB) (pid : Nat) (qty : Int) :
    (consumeBatchesFIFO db pid qty).1.revenue =
      takesRevenue (specTakes (listOpenBatches db pid) qty) := by
  unfold consumeBatchesFIFO
  by_cases h : qty ≤ 0
  · simp [h, specTakes_nonpos h, takesRevenue]
  · rw [if_neg h, consumeWalk_eq_spec]
    by_cases h2 : 0 < qty - takesTotal (specTakes (listOpenBatches db pid) qty) <;>
      simp [h2]

/-- C1: for every product and requested quantity, `consumeBatchesFIFO`
walks exactly the open batches (`remaining_quantity > 0`) of the product,
in ascending `(created_at, id)` order, taking
`min(remaining_quantity, stillNeeded)` from each batch in order and
stopping when nothing is still needed or the batches are exhausted, with
`cogs = Σ take * bought_price` and `revenue = Σ take * selling_price`;
in particular consuming 7 from the two example batches yields cogs = 90,
batch 1 remaining 0 and batch 2 remaining 3. -/
theorem consumeBatchesFIFO_fifo_walk :
    (∀ (db : RemoteDB) (pid : Nat) (b : ProductBatch),
        b ∈ listOpenBatches db pid ↔
          b ∈ db.batches ∧ b.product_id = pid ∧ 0 < b.remaining_quantity)
    ∧ (∀ (db : RemoteDB) (pid : Nat), (listOpenBatches db pid).Sorted FifoLe)
    ∧ (∀ (db : RemoteDB) (pid : Nat) (qty : Int),
        (consumeBatchesFIFO db pid qty).1.cogs =
            takesCogs (specTakes (listOpenBatches db pid) qty)
          ∧ (consumeBatchesFIFO db pid qty).1.revenue =
            takesRevenue (specTakes (listOpenBatches db pid) qty))
    ∧ (consumeBatchesFIFO exDB 1 7).1.cogs = 5 * 10 + 2 * 20
    ∧ ((consumeBatchesFIFO exDB 1 7).2.batches.map
        (fun b => b.remaining_quantity)) = [0, 3] := by
  refine ⟨fun db pid b => mem_listOpenBatches, fun db pid => sorted_listOpenBatches db pid,
    fun db pid qty => ⟨consumeBatchesFIFO_cogs db pid qty, consumeBatchesFIFO_revenue db pid qty⟩,
    by decide, by decide⟩

/-- C10: a non-positive requested quantity is a silent successful no-op:
consumed = 0, cogs = 0, revenue = 0, no error, and the store is returned
unchanged (no batch or product-stock mutation). -/
theorem consumeBatchesFIFO_nonpos_noop (db : RemoteDB) (pid : Nat) (qty : Int)
    (h : qty ≤ 0) :
    consumeBatchesFIFO db pid qty =
      ({ consumed := 0, cogs := 0, revenue := 0, error := none }, db) := by
  unfold consumeBatchesFIFO
  simp [h]

/-- Witness for C10 at quantity 0 on the example ledger. -/
theorem consumeBatchesFIFO_nonpos_noop_witness :
    consumeBatchesFIFO exDB 1 0 =
      ({ consumed := 0, cogs := 0, revenue := 0, error := none }, exDB) :=
  consumeBatchesFIFO_nonpos_noop exDB 1 0 (by decide)

/-! ### Insufficient stock (C3) -/

/-- A one-batch ledger holding 5 units of product 1. -/
def exDB3 : RemoteDB :=
  { products := [⟨1, 15, 5⟩],
    batches := [⟨1, 1, 10, 15, 5, 5, 1⟩],
    sales := [], sale_items := [], nextBatchId := 2, nextSaleId := 0 }

lemma takesTotal_of_short {bs : List ProductBatch} :
    ∀ {need : Int}, (∀ b ∈ bs, 0 < b.remaining_quantity) →
      ((bs.map (fun b => b.remaining_quantity)).sum < need) →
      takesTotal (specTakes bs need) =
        (bs.map (fun b => b.remaining_quantity)).sum := by
  induction bs with
  | nil => intro need _ _; simp [specTakes, takesTotal]
  | cons b rest ih =>
    intro need hpos hlt
    have hrest : ∀ x ∈ rest, 0 < x.remaining_quantity :=
      fun x hx => hpos x (List.mem_cons_of_mem _ hx)
    have hsum : 0 ≤ (rest.map (fun b => b.remaining_quantity)).sum :=
      List.sum_nonneg (by
        intro x hx
        rcases List.mem_map.mp hx with ⟨y, hy, rfl⟩
        exact le_of_lt (hrest y hy))
    simp only [List.map_cons, List.sum_cons] at hlt ⊢
    have hb : 0 < b.remaining_quantity := hpos b (List.mem_cons_self _ _)
    have hneed : ¬ need ≤ 0 := by omega
    have hmin : min b.remaining_quantity need = b.remaining_quantity := by omega
    simp only [specTakes, if_neg hneed, hmin, takesTotal, List.map_cons, List.sum_cons]
    have := ih hrest (by omega : (rest.map (fun b => b.remaining_quantity)).sum
      < need - b.remaining_quantity)
    simp only [takesTotal] at this
    rw [this]

/-- C3 counterexample: consuming 7 from a ledger holding only 5 fails with
the insufficient-stock error, but the partially-walked batch update is NOT
persisted: the store comes back unchanged, the batch still holds 5. -/
theorem consumeBatchesFIFO_partial_not_persisted_cex :
    (consumeBatchesFIFO exDB3 1 7).1.error = some DbErr.insufficientBatchStock
    ∧ (consumeBatchesFIFO exDB3 1 7).2 = exDB3
    ∧ ((consumeBatchesFIFO exDB3 1 7).2.batches.map
        (fun b => b.remaining_quantity)) ≠ [0] := by
  exact ⟨by decide, by decide, by decide⟩

/-- C3 amended: when the open remaining total is short of a positive
request, `consumeBatchesFIFO` reports the insufficient-stock error (never
success), returns the partial consumption computed by the walk (consumed
equals the whole open total, cogs and revenue are the walk partial sums),
and persists nothing: the store is returned unchanged. -/
theorem consumeBatchesFIFO_insufficient (db : RemoteDB) (pid : Nat) (qty : Int)
    (h0 : 0 < qty) (hlt : openStock db pid < qty) :
    (consumeBatchesFIFO db pid qty).1.error = some DbErr.insufficientBatchStock
    ∧ (consumeBatchesFIFO db pid qty).1.consumed = openStock db pid
    ∧ (consumeBatchesFIFO db pid qty).1.cogs =
        takesCogs (specTakes (listOpenBatches db pid) qty)
    ∧ (consumeBatchesFIFO db pid qty).1.revenue =
        takesRevenue (specTakes (listOpenBatches db pid) qty)
    ∧ (consumeBatchesFIFO db pid qty).2 = db := by
  have hpos : ∀ b ∈ listOpenBatches db pid, 0 < b.remaining_quantity :=
    fun b hb => (mem_listOpenBatches.mp hb).2.2
  have htot : takesTotal (specTakes (listOpenBatches db pid) qty) = openStock db pid :=
    takesTotal_of_short hpos hlt
  have hrem : 0 < qty - takesTotal (specTakes (listOpenBatches db pid) qty) := by
    rw [htot]; omega
  unfold consumeBatchesFIFO
  rw [if_neg (by omega : ¬ qty ≤ 0)]
  simp only [consumeWalk_eq_spec]
  rw [if_pos hrem]
  refine ⟨rfl, ?_, ?_, ?_, rfl⟩
  · show qty - (qty - takesTotal (specTakes (listOpenBatches db pid) qty)) = openStock db pid
    rw [htot]; ring
  · show (0 : Int) + takesCogs (specTakes (listOpenBatches db pid) qty) =
      takesCogs (specTakes (listOpenBatches db pid) qty)
    ring
  · show (0 : Int) + takesRevenue (specTakes (listOpenBatches db pid) qty) =
      takesRevenue (specTakes (listOpenBatches db pid) qty)
    ring

/-- Witness for C3 amended at the counterexample ledger. -/
theorem consumeBatchesFIFO_insufficient_witness :
    (consumeBatchesFIFO exDB3 1 7).1.error = some DbErr.insufficientBatchStock
    ∧ (consumeBatchesFIFO exDB3 1 7).1.consumed = openStock exDB3 1
    ∧ (consumeBatchesFIFO exDB3 1 7).1.cogs =
        takesCogs (specTakes (listOpenBatches exDB3 1) 7)
    ∧ (consumeBatchesFIFO exDB3 1 7).1.revenue =
        takesRevenue (specTakes (listOpenBatches exDB3 1) 7)
    ∧ (consumeBatchesFIFO exDB3 1 7).2 = exDB3 :=
  consumeBatchesFIFO_insufficient exDB3 1 7 (by decide) (by decide)

/-! ### Quoting (C6) -/

/-- Apply a function to the bought price of every batch, leaving every
other field (and every other store) unchanged. -/
def mapBoughtPrice (db : RemoteDB) (g : Int → Int) : RemoteDB :=
  { db with
    batches := db.batches.map (fun b => { b with bought_price := g b.bought_price }) }

lemma orderedInsert_map_bought (g : Int → Int) (a : ProductBatch) :
    ∀ l : List ProductBatch,
      List.orderedInsert FifoLe { a with bought_price := g a.bought_price }
          (l.map (fun b => { b with bought_price := g b.bought_price })) =
        (List.orderedInsert FifoLe a l).map
          (fun b => { b with bought_price := g b.bought_price }) := by
  intro l
  induction l with
  | nil => rfl
  | cons b rest ih =>
    by_cases h : FifoLe a b
    · have h2 : FifoLe { a with bought_price := g a.bought_price }
          { b with bought_price := g b.bought_price } := h
      simp [List.orderedInsert, if_pos h, if_pos h2]
    · have h2 : ¬ FifoLe { a with bought_price := g a.bought_price }
          { b with bought_price := g b.bought_price } := h
      simp [List.orderedInsert, if_neg h, if_neg h2, ih]

lemma insertionSort_map_bought (g : Int → Int) :
    ∀ l : List ProductBatch,
      List.insertionSort FifoLe (l.map (fun b => { b with bought_price := g b.bought_price })) =
        (List.insertionSort FifoLe l).map
          (fun b => { b with bought_price := g b.bought_price }) := by
  intro l
  induction l with
  | nil => rfl
  | cons b rest ih => simp [List.insertionSort, ih, orderedInsert_map_bought]

lemma listOpenBatches_mapBoughtPrice (db : RemoteDB) (g : Int → Int) (pid : Nat) :
    listOpenBatches (mapBoughtPrice db g) pid =
      (listOpenBatches db pid).map (fun b => { b with bought_price := g b.bought_price }) := by
  unfold listOpenBatches mapBoughtPrice
  rw [List.filter_map]
  have : ((fun b : ProductBatch => b.product_id == pid && decide (0 < b.remaining_quantity)) ∘
      (fun b : ProductBatch => { b with bought_price := g b.bought_price })) =
      (fun b : ProductBatch => b.product_id == pid && decide (0 < b.remaining_quantity)) := by
    funext b; rfl
  rw [this, insertionSort_map_bought]

lemma quoteWalk_map_bought (g : Int → Int) :
    ∀ (bs : List ProductBatch) (rem acc : Int),
      quoteWalk (bs.map (fun b => { b with bought_price := g b.bought_price })) rem acc =
        quoteWalk bs rem acc := by
  intro bs
  induction bs with
  | nil => intro rem acc; rfl
  | cons b rest ih =>
    intro rem acc
    by_cases h : rem ≤ 0
    · simp [quoteWalk, h]
    · simp [quoteWalk, h, ih]

lemma quoteSaleBatches_foldl (db : RemoteDB) :
    ∀ (items : List (Nat × Int)) (acc : Int),
      items.foldl
        (fun totalRevenue it =>
          if it.2 ≤ 0 then totalRevenue
          else totalRevenue + quoteWalk (listOpenBatches db it.1) it.2 0)
        acc =
      acc + (items.map (fun it => (consumeBatchesFIFO db it.1 it.2).1.revenue)).sum := by
  intro items
  induction items with
  | nil => intro acc; simp
  | cons it rest ih =>
    intro acc
    rw [List.foldl_cons, ih]
    by_cases h : it.2 ≤ 0
    · have hrev : (consumeBatchesFIFO db it.1 it.2).1.revenue = 0 := by
        unfold consumeBatchesFIFO; simp [h]
      simp only [if_pos h, List.map_cons, List.sum_cons, hrev]
      ring
    · have hrev : (consumeBatchesFIFO db it.1 it.2).1.revenue =
          takesRevenue (specTakes (listOpenBatches db it.1) it.2) :=
        consumeBatchesFIFO_revenue db it.1 it.2
      simp only [if_neg h, List.map_cons, List.sum_cons, quoteWalk_eq_spec, hrev]
      ring

/-- C6: the quote performs the same FIFO walk as consumption but
read-only: for every ledger state and item list, the quoted revenue is
exactly the sum of the `revenue` fields `consumeBatchesFIFO` computes for
the same items against the same ledger state; and the quote ignores
`bought_price` entirely (it is invariant under any rewrite of every
bought price). -/
theorem quoteSaleBatches_eq_consume_revenue :
    (∀ (db : RemoteDB) (items : List (Nat × Int)),
        quoteSaleBatches db items =
          (items.map (fun it => (consumeBatchesFIFO db it.1 it.2).1.revenue)).sum)
    ∧ (∀ (db : RemoteDB) (g : Int → Int) (items : List (Nat × Int)),
        quoteSaleBatches (mapBoughtPrice db g) items = quoteSaleBatches db items) := by
  constructor
  · intro db items
    unfold quoteSaleBatches
    rw [quoteSaleBatches_foldl]
    ring
  · intro db g items
    unfold quoteSaleBatches
    congr 1
    funext totalRevenue it
    rw [listOpenBatches_mapBoughtPrice, quoteWalk_map_bought]

/-! ### Batch creation (C7) -/

/-- C7 counterexample: `createProductBatch` with quantity 0 and bought
price -1 does NOT fail: it reports no error and inserts the batch row. -/
theorem createProductBatch_no_validation_cex :
    ((createProductBatch exDB ⟨1, -1, 15, 0, none⟩).1.2 = none)
    ∧ (createProductBatch exDB ⟨1, -1, 15, 0, none⟩).2.batches.length =
        exDB.batches.length + 1 := by
  exact ⟨by decide, by decide⟩

/-- C7 amended: `createProductBatch` performs no input validation: for
every input (including quantity ≤ 0 or bought price < 0) it succeeds,
inserting a batch whose `remaining_quantity` equals its `quantity`
whenever no explicit remaining-quantity override is supplied. -/
theorem createProductBatch_creates_unvalidated (db : RemoteDB) (input : NewBatchInput)
    (h : input.remaining_quantity = none) :
    (createProductBatch db input).1.2 = none
    ∧ ∃ nb : ProductBatch,
        (createProductBatch db input).1.1 = some nb
        ∧ nb.remaining_quantity = input.quantity
        ∧ nb.quantity = input.quantity
        ∧ nb.product_id = input.product_id
        ∧ nb.bought_price = input.bought_price
        ∧ (createProductBatch db input).2.batches = db.batches ++ [nb] := by
  unfold createProductBatch
  exact ⟨rfl, ⟨_, rfl, by simp [h], rfl, rfl, rfl, rfl⟩⟩

/-! ### Multi-item sales (C4) -/

/-- The state after one successful loop iteration of `processSaleBatches`:
consume the item FIFO, decrement the cached product stock, delete the
empty batches of the product. -/
def stepDb (db : RemoteDB) (it : Nat × Int) : RemoteDB :=
  deleteEmptyBatches
    (updateProductStockDelta (consumeBatchesFIFO db it.1 it.2).2 it.1 (-it.2)).1 it.1

/-- One `processSaleBatches` iteration passes: the consume neither errors
nor under-consumes, and the cached-stock update succeeds. -/
def itemOk (db : RemoteDB) (it : Nat × Int) : Bool :=
  !((consumeBatchesFIFO db it.1 it.2).1.error.isSome
      || (consumeBatchesFIFO db it.1 it.2).1.consumed != it.2)
  && ((updateProductStockDelta (consumeBatchesFIFO db it.1 it.2).2 it.1 (-it.2)).2).isNone

/-- Every iteration of the `processSaleBatches` loop passes. -/
def okItems : RemoteDB → List (Nat × Int) → Bool
  | _, [] => true
  | db, it :: rest => itemOk db it && okItems (stepDb db it) rest

/-- State after running the loop over the items. -/
def dbAfterItems (db : RemoteDB) (items : List (Nat × Int)) : RemoteDB :=
  items.foldl stepDb db

/-- Aggregate cogs over the sequentially consumed items. -/
def cogsAfterItems : RemoteDB → List (Nat × Int) → Int
  | _, [] => 0
  | db, it :: rest =>
    (consumeBatchesFIFO db it.1 it.2).1.cogs + cogsAfterItems (stepDb db it) rest

/-- Aggregate revenue over the sequentially consumed items. -/
def revenueAfterItems : RemoteDB → List (Nat × Int) → Int
  | _, [] => 0
  | db, it :: rest =>
    (consumeBatchesFIFO db it.1 it.2).1.revenue + revenueAfterItems (stepDb db it) rest

/-- Per-item details over the sequentially consumed items. -/
def detailsAfterItems : RemoteDB → List (Nat × Int) → List SaleConsumeDetail
  | _, [] => []
  | db, it :: rest =>
    ⟨it.1, it.2, (consumeBatchesFIFO db it.1 it.2).1.cogs,
      (consumeBatchesFIFO db it.1 it.2).1.revenue⟩ :: detailsAfterItems (stepDb db it) rest

lemma consumeBatchesFIFO_error_unchanged {db : RemoteDB} {pid : Nat} {qty : Int} {e : DbErr}
    (h : (consumeBatchesFIFO db pid qty).1.error = some e) :
    (consumeBatchesFIFO db pid qty).2 = db := by
  unfold consumeBatchesFIFO at h ⊢
  by_cases h0 : qty ≤ 0
  · simp [h0]
  · simp only [if_neg h0] at h ⊢
    by_cases h1 : 0 <
        (consumeWalk (listOpenBatches db pid) qty 0 0 []).1
    · simp [h1]
    · simp [h1] at h

lemma processLoop_ok :
    ∀ (items : List (Nat × Int)) (db : RemoteDB) (c r : Int)
      (d : List SaleConsumeDetail),
      okItems db items = true →
      processLoop db items c r d =
        ({ cogs := c + cogsAfterItems db items,
           revenue := r + revenueAfterItems db items,
           details := d ++ detailsAfterItems db items, error := none }, dbAfterItems db items) := by
  intro items
  induction items with
  | nil =>
    intro db c r d _
    simp [processLoop, cogsAfterItems, revenueAfterItems, detailsAfterItems, dbAfterItems]
  | cons it rest ih =>
    intro db c r d hok
    rw [okItems] at hok
    have h1 : itemOk db it = true := by
      cases h : itemOk db it <;> simp [h] at hok ⊢
    have h2 : okItems (stepDb db it) rest = true := by
      cases h : okItems (stepDb db it) rest <;> simp [h, h1] at hok ⊢
    rw [itemOk] at h1
    have hcond : ((consumeBatchesFIFO db it.1 it.2).1.error.isSome
        || (consumeBatchesFIFO db it.1 it.2).1.consumed != it.2) = false := by
      cases h : ((consumeBatchesFIFO db it.1 it.2).1.error.isSome
        || (consumeBatchesFIFO db it.1 it.2).1.consumed != it.2) <;> simp [h] at h1 ⊢
    have hupd : ((updateProductStockDelta
        (consumeBatchesFIFO db it.1 it.2).2 it.1 (-it.2)).2).isNone = true := by
      cases h : ((updateProductStockDelta
        (consumeBatchesFIFO db it.1 it.2).2 it.1 (-it.2)).2).isNone <;> simp [h] at h1 ⊢
    rcases hc : consumeBatchesFIFO db it.1 it.2 with ⟨res, db1⟩
    rcases hu : updateProductStockDelta db1 it.1 (-it.2) with ⟨db2, updErr⟩
    rw [hc] at hcond
    rw [hc, hu] at hupd
    have hupd2 : updErr = none := by
      cases updErr with
      | none => rfl
      | some e => simp at hupd
    subst hupd2
    have hstep : stepDb db it = deleteEmptyBatches db2 it.1 := by
      rw [stepDb, hc, hu]
    simp only [processLoop, hc, hcond, Bool.false_eq_true, if_false, hu]
    rw [hstep] at h2
    rw [ih _ _ _ _ h2]
    simp only [cogsAfterItems, revenueAfterItems, detailsAfterItems, dbAfterItems, hc,
      List.foldl_cons, hstep]
    simp [add_assoc, List.append_assoc, dbAfterItems]

lemma processLoop_first_fail :
    ∀ (front : List (Nat × Int)) (db : RemoteDB) (c r : Int)
      (d : List SaleConsumeDetail) (bad : Nat × Int) (post : List (Nat × Int)) (e : DbErr),
      okItems db front = true →
      (consumeBatchesFIFO (dbAfterItems db front) bad.1 bad.2).1.error = some e →
      processLoop db (front ++ bad :: post) c r d =
        ({ cogs := c + cogsAfterItems db front,
           revenue := r + revenueAfterItems db front,
           details := [], error := some e }, dbAfterItems db front) := by
  intro front
  induction front with
  | nil =>
    intro db c r d bad post e _ hbad
    have hdb : dbAfterItems db [] = db := rfl
    rw [hdb] at hbad
    have hunch := consumeBatchesFIFO_error_unchanged hbad
    rcases hc : consumeBatchesFIFO db bad.1 bad.2 with ⟨res, db1⟩
    rw [hc] at hbad hunch
    simp only at hbad hunch
    have hcond : (res.error.isSome || res.consumed != bad.2) = true := by
      simp [hbad]
    simp only [List.nil_append, processLoop, hc, hcond, if_true]
    subst hunch
    simp [hbad, cogsAfterItems, revenueAfterItems, dbAfterItems]
  | cons it rest ih =>
    intro db c r d bad post e hok hbad
    rw [okItems] at hok
    have h1 : itemOk db it = true := by
      cases h : itemOk db it <;> simp [h] at hok ⊢
    have h2 : okItems (stepDb db it) rest = true := by
      cases h : okItems (stepDb db it) rest <;> simp [h, h1] at hok ⊢
    rw [itemOk] at h1
    have hcond : ((consumeBatchesFIFO db it.1 it.2).1.error.isSome
        || (consumeBatchesFIFO db it.1 it.2).1.consumed != it.2) = false := by
      cases h : ((consumeBatchesFIFO db it.1 it.2).1.error.isSome
        || (consumeBatchesFIFO db it.1 it.2).1.consumed != it.2) <;> simp [h] at h1 ⊢
    have hupd : ((updateProductStockDelta
        (consumeBatchesFIFO db it.1 it.2).2 it.1 (-it.2)).2).isNone = true := by
      cases h : ((updateProductStockDelta
        (consumeBatchesFIFO db it.1 it.2).2 it.1 (-it.2)).2).isNone <;> simp [h] at h1 ⊢
    rcases hc : consumeBatchesFIFO db it.1 it.2 with ⟨res, db1⟩
    rcases hu : updateProductStockDelta db1 it.1 (-it.2) with ⟨db2, updErr⟩
    rw [hc] at hcond
    rw [hc, hu] at hupd
    have hupd2 : updErr = none := by
      cases updErr with
      | none => rfl
      | some e2 => simp at hupd
    subst hupd2
    have hstep : stepDb db it = deleteEmptyBatches db2 it.1 := by
      rw [stepDb, hc, hu]
    have hafter : dbAfterItems db (it :: rest) = dbAfterItems (stepDb db it) rest := by
      simp [dbAfterItems, List.foldl_cons]
    rw [hafter] at hbad
    simp only [List.cons_append, processLoop, hc, hcond, Bool.false_eq_true, if_false, hu]
    rw [hstep] at h2 hbad
    simp only [List.append_eq]
    rw [ih _ _ _ _ bad post e h2 hbad]
    simp only [cogsAfterItems, revenueAfterItems, dbAfterItems, hc, List.foldl_cons, hstep]
    simp [add_assoc, dbAfterItems]

/-- C4: `processSaleBatches` consumes once per item in order; when every
iteration passes it aggregates cogs/revenue/details over the items; the
FIRST item whose FIFO consume fails aborts the run immediately, returning
the aggregates accumulated so far plus that item's error, and the state
keeps the batch decrements and cached-stock updates of the earlier items
(no rollback: the final state is exactly the state after the successful
items). -/
theorem processSaleBatches_first_failure_aborts :
    (∀ (db : RemoteDB) (items : List (Nat × Int)),
        (∀ it ∈ items, it.2 ≤ getProductStock db it.1) →
        okItems db items = true →
        processSaleBatches db items =
          ({ cogs := cogsAfterItems db items, revenue := revenueAfterItems db items,
             details := detailsAfterItems db items, error := none }, dbAfterItems db items))
    ∧ (∀ (db : RemoteDB) (front : List (Nat × Int)) (bad : Nat × Int)
          (post : List (Nat × Int)) (e : DbErr),
        (∀ it ∈ front ++ bad :: post, it.2 ≤ getProductStock db it.1) →
        okItems db front = true →
        (consumeBatchesFIFO (dbAfterItems db front) bad.1 bad.2).1.error = some e →
        processSaleBatches db (front ++ bad :: post) =
          ({ cogs := cogsAfterItems db front, revenue := revenueAfterItems db front,
             details := [], error := some e }, dbAfterItems db front)) := by
  constructor
  · intro db items hval hok
    unfold processSaleBatches
    rw [if_neg (by
      simp only [List.any_eq_true, not_exists, not_and]
      intro it hit
      simp only [decide_eq_true_eq, not_lt]
      exact hval it hit)]
    have := processLoop_ok items db 0 0 [] hok
    rw [this]
    simp
  · intro db front bad post e hval hok hbad
    unfold processSaleBatches
    rw [if_neg (by
      simp only [List.any_eq_true, not_exists, not_and]
      intro it hit
      simp only [decide_eq_true_eq, not_lt]
      exact hval it hit)]
    have := processLoop_first_fail front db 0 0 [] bad post e hok hbad
    rw [this]
    simp

/-- Witness for C4 amended-as-stated behaviour: selling 3 then 3 more of
a product with 5 in one open batch passes validation, consumes the first
item, then aborts on the second with the insufficient-stock error, keeping
the first consumption. -/
theorem processSaleBatches_first_failure_aborts_witness :
    processSaleBatches exDB3 ([(1, 3)] ++ (1, 3) :: []) =
      ({ cogs := cogsAfterItems exDB3 [(1, 3)],
         revenue := revenueAfterItems exDB3 [(1, 3)],
         details := [], error := some DbErr.insufficientBatchStock },
        dbAfterItems exDB3 [(1, 3)]) :=
  processSaleBatches_first_failure_aborts.2 exDB3 [(1, 3)] (1, 3) [] DbErr.insufficientBatchStock
    (by decide) (by decide) (by decide)

/-! ### Cache-ledger consistency (C2) -/

/-- Store well-formedness: batch row ids are unique, product row ids are
unique, and every batch id is below the id counter (so a freshly generated
id is really fresh). All of this holds of the real store by construction
(ids are store-generated primary keys). -/
def WF (db : RemoteDB) : Prop :=
  (db.batches.map (fun b => b.id)).Nodup
  ∧ (db.products.map (fun p => p.id)).Nodup
  ∧ ∀ i ∈ db.batches.map (fun b => b.id), i < db.nextBatchId

/-- The cache-ledger consistency invariant: every product row caches
exactly the sum of the remaining quantities of its batch rows. -/
def Consistent (db : RemoteDB) : Prop :=
  ∀ p ∈ db.products, p.stock = getProductStock db p.id

/-- The two inventory-mutating operations of the claim: a sale
(`processSaleBatches`) and a restock (`addStockBatch`). -/
inductive StockOp where
  | sale (items : List (Nat × Int))
  | restock (productId : Nat) (boughtPrice quantity sellingPrice : Int)

/-- Run one operation, keeping the resulting store. -/
def applyOp (db : RemoteDB) : StockOp → RemoteDB
  | .sale items => (processSaleBatches db items).2
  | .restock pid bp q sp => (addStockBatch db pid bp q sp).2

/-- Run a sequence of operations. -/
def applyOps (db : RemoteDB) (ops : List StockOp) : RemoteDB :=
  ops.foldl applyOp db

/-- Cumulative effect of an update list on one batch row. -/
def updFold (us : List (Nat × Int)) (b : ProductBatch) : ProductBatch :=
  us.foldl (fun x u => if x.id == u.1 then { x with remaining_quantity := u.2 } else x) b

lemma applyUpdates_batches : ∀ (us : List (Nat × Int)) (db : RemoteDB),
    (applyUpdates db us).batches = db.batches.map (updFold us) := by
  intro us
  induction us with
  | nil =>
    intro db
    show db.batches = db.batches.map (updFold [])
    have h : db.batches.map (updFold []) = db.batches.map (fun b => b) := rfl
    rw [h, List.map_id']
  | cons u rest ih =>
    intro db
    show (applyUpdates (updateBatchRemaining db u.1 u.2) rest).batches = _
    rw [ih]
    show ((db.batches.map _).map (updFold rest)) = _
    rw [List.map_map]
    rfl

lemma updFold_id : ∀ (us : List (Nat × Int)) (b : ProductBatch), (updFold us b).id = b.id := by
  intro us
  induction us with
  | nil => intro b; rfl
  | cons u rest ih =>
    intro b
    show (updFold rest (if b.id == u.1 then { b with remaining_quantity := u.2 } else b)).id = b.id
    by_cases h : b.id == u.1
    · rw [if_pos h, ih]
    · rw [if_neg h, ih]

lemma applyUpdates_products (us : List (Nat × Int)) : ∀ (db : RemoteDB),
    (applyUpdates db us).products = db.products := by
  induction us with
  | nil => intro db; rfl
  | cons u rest ih => intro db; exact ih _

lemma applyUpdates_nextBatchId (us : List (Nat × Int)) : ∀ (db : RemoteDB),
    (applyUpdates db us).nextBatchId = db.nextBatchId := by
  induction us with
  | nil => intro db; rfl
  | cons u rest ih => intro db; exact ih _

lemma applyUpdates_ids (us : List (Nat × Int)) (db : RemoteDB) :
    (applyUpdates db us).batches.map (fun b => b.id) = db.batches.map (fun b => b.id) := by
  rw [applyUpdates_batches, List.map_map]
  exact List.map_congr_left (fun b _ => updFold_id us b)

lemma sumRem_filter_update :
    ∀ (l : List ProductBatch), ((l.map (fun b => b.id)).Nodup) →
      ∀ {b : ProductBatch}, b ∈ l → ∀ (nr : Int) (pid : Nat),
      (((l.map (fun x => if x.id == b.id then { x with remaining_quantity := nr } else x)).filter
          (fun x => x.product_id == pid)).map (fun x => x.remaining_quantity)).sum
        = ((l.filter (fun x => x.product_id == pid)).map (fun x => x.remaining_quantity)).sum
          + (if b.product_id = pid then nr - b.remaining_quantity else 0) := by
  intro l
  induction l with
  | nil => intro _ b hb; exact absurd hb (List.not_mem_nil b)
  | cons a rest ih =>
    intro hnd b hb nr pid
    rw [List.map_cons, List.nodup_cons] at hnd
    rcases hnd with ⟨hnotin, hndrest⟩
    by_cases hab : a = b
    · subst hab
      have hmapself :
          rest.map (fun x => if x.id == a.id then { x with remaining_quantity := nr } else x) =
            rest := by
        have : ∀ x ∈ rest,
            (if x.id == a.id then { x with remaining_quantity := nr } else x) = x := by
          intro x hx
          have hne : x.id ≠ a.id := by
            intro he
            exact hnotin (he ▸ List.mem_map_of_mem (fun b => b.id) hx)
          rw [if_neg (by simpa using hne)]
        rw [List.map_congr_left this, List.map_id']
      rw [List.map_cons, if_pos (by simp), hmapself]
      by_cases hpid : a.product_id = pid
      · simp only [List.filter_cons]
        simp [hpid]
        ring
      · simp only [List.filter_cons]
        simp [hpid]
    · have hbrest : b ∈ rest := by
        rcases List.mem_cons.mp hb with h | h
        · exact absurd h.symm hab
        · exact h
      have hane : a.id ≠ b.id := by
        intro he
        exact hnotin (he ▸ List.mem_map_of_mem (fun b => b.id) hbrest)
      rw [List.map_cons, if_neg (by simpa using hane)]
      have hrec := ih hndrest hbrest nr pid
      by_cases hpid : a.product_id = pid
      · simp only [List.filter_cons]
        simp [hpid]
        simp only [beq_iff_eq] at hrec
        rw [hrec]
        ring
      · simp only [List.filter_cons]
        simp [hpid]
        simp only [beq_iff_eq] at hrec
        rw [hrec]

lemma getProductStock_updateBatchRemaining {db : RemoteDB}
    (hids : (db.batches.map (fun b => b.id)).Nodup) {b : ProductBatch}
    (hb : b ∈ db.batches) (nr : Int) (pid : Nat) :
    getProductStock (updateBatchRemaining db b.id nr) pid
      = getProductStock db pid
        + (if b.product_id = pid then nr - b.remaining_quantity else 0) :=
  sumRem_filter_update db.batches hids hb nr pid

lemma specTakes_fst_sublist : ∀ (bs : List ProductBatch) (q : Int),
    List.Sublist ((specTakes bs q).map Prod.fst) bs := by
  intro bs
  induction bs with
  | nil => intro q; simp [specTakes]
  | cons b rest ih =>
    intro q
    by_cases h : q ≤ 0
    · simp [specTakes, h]
    · simp only [specTakes, if_neg h, List.map_cons]
      exact List.Sublist.cons₂ b (ih _)

lemma listOpenBatches_ids_nodup {db : RemoteDB} (pid : Nat)
    (hids : (db.batches.map (fun b => b.id)).Nodup) :
    ((listOpenBatches db pid).map (fun b => b.id)).Nodup := by
  have hperm : List.Perm (listOpenBatches db pid)
      (db.batches.filter (fun b => b.product_id == pid && decide (0 < b.remaining_quantity))) :=
    List.perm_insertionSort FifoLe _
  have hsub : List.Sublist
      ((db.batches.filter
        (fun b => b.product_id == pid && decide (0 < b.remaining_quantity))).map
        (fun b => b.id))
      (db.batches.map (fun b => b.id)) :=
    (List.filter_sublist db.batches).map _
  exact ((hperm.map (fun b => b.id)).nodup_iff).mpr (hids.sublist hsub)

lemma takesTotal_le_need : ∀ (bs : List ProductBatch),
    (∀ b ∈ bs, 0 < b.remaining_quantity) →
    ∀ need : Int, 0 ≤ need → takesTotal (specTakes bs need) ≤ need := by
  intro bs
  induction bs with
  | nil => intro _ need h; simp [specTakes, takesTotal]; exact h
  | cons b rest ih =>
    intro hpos need hneed
    by_cases h : need ≤ 0
    · rw [specTakes_nonpos h]
      simpa [takesTotal] using hneed
    · have hb : 0 < b.remaining_quantity := hpos b (List.mem_cons_self _ _)
      have htake_le : min b.remaining_quantity need ≤ need := min_le_right _ _
      have hrest := ih (fun x hx => hpos x (List.mem_cons_of_mem _ hx))
        (need - min b.remaining_quantity need) (by omega)
      simp only [specTakes, if_neg h, takesTotal, List.map_cons, List.sum_cons]
      simp only [takesTotal] at hrest
      omega

lemma consume_success_spec {db : RemoteDB} {pid : Nat} {qty : Int} (h0 : 0 < qty)
    (herr : (consumeBatchesFIFO db pid qty).1.error = none) :
    takesTotal (specTakes (listOpenBatches db pid) qty) = qty
    ∧ (consumeBatchesFIFO db pid qty).1.consumed = qty
    ∧ (consumeBatchesFIFO db pid qty).2 =
        applyUpdates db ((specTakes (listOpenBatches db pid) qty).map
          (fun p => (p.1.id, p.1.remaining_quantity - p.2))) := by
  have hle : takesTotal (specTakes (listOpenBatches db pid) qty) ≤ qty :=
    takesTotal_le_need _ (fun b hb => (mem_listOpenBatches.mp hb).2.2) qty h0.le
  unfold consumeBatchesFIFO at herr ⊢
  rw [if_neg (not_le.mpr h0)] at herr ⊢
  simp only [consumeWalk_eq_spec] at herr ⊢
  by_cases h1 : 0 < qty - takesTotal (specTakes (listOpenBatches db pid) qty)
  · rw [if_pos h1] at herr
    simp at herr
  · rw [if_neg h1]
    refine ⟨by omega, rfl, by simp⟩

lemma consume_frame (db : RemoteDB) (pid : Nat) (qty : Int) :
    ((consumeBatchesFIFO db pid qty).2.products = db.products)
    ∧ ((consumeBatchesFIFO db pid qty).2.batches.map (fun b => b.id) =
        db.batches.map (fun b => b.id))
    ∧ ((consumeBatchesFIFO db pid qty).2.nextBatchId = db.nextBatchId) := by
  unfold consumeBatchesFIFO
  by_cases h0 : qty ≤ 0
  · simp [h0]
  · simp only [if_neg h0]
    by_cases h1 : 0 < (consumeWalk (listOpenBatches db pid) qty 0 0 []).1
    · simp [h1]
    · simp [h1, applyUpdates_products, applyUpdates_ids, applyUpdates_nextBatchId]

lemma updateBatchRemaining_ids (db : RemoteDB) (bid : Nat) (nr : Int) :
    (updateBatchRemaining db bid nr).batches.map (fun x => x.id) =
      db.batches.map (fun x => x.id) := by
  unfold updateBatchRemaining
  rw [List.map_map]
  refine List.map_congr_left (fun x _ => ?_)
  simp only [Function.comp_apply, beq_iff_eq]
  by_cases hx : x.id = bid
  · rw [if_pos hx]
  · rw [if_neg hx]

lemma getProductStock_applyUpdates_takes :
    ∀ (ts : List (ProductBatch × Int)) (db : RemoteDB),
      ((db.batches.map (fun b => b.id)).Nodup) →
      (∀ p ∈ ts, p.1 ∈ db.batches) →
      ((ts.map (fun p => p.1.id)).Nodup) →
      ∀ pid : Nat,
        getProductStock
            (applyUpdates db (ts.map (fun p => (p.1.id, p.1.remaining_quantity - p.2)))) pid
          = getProductStock db pid
            - ((ts.filter (fun p => p.1.product_id == pid)).map (fun p => p.2)).sum := by
  intro ts
  induction ts with
  | nil => intro db _ _ _ pid; simp [applyUpdates]
  | cons bt rest ih =>
    intro db hids hmem hnd pid
    rcases bt with ⟨b, t⟩
    rw [List.map_cons, List.nodup_cons] at hnd
    rcases hnd with ⟨hnotin, hndrest⟩
    have hb : b ∈ db.batches := hmem (b, t) (List.mem_cons_self _ _)
    rw [List.map_cons]
    show getProductStock
        (applyUpdates (updateBatchRemaining db b.id (b.remaining_quantity - t))
          (rest.map (fun p => (p.1.id, p.1.remaining_quantity - p.2)))) pid = _
    have hids2 : ((updateBatchRemaining db b.id (b.remaining_quantity - t)).batches.map
        (fun x => x.id)).Nodup := by
      rw [updateBatchRemaining_ids]; exact hids
    have hmem2 : ∀ p ∈ rest, p.1 ∈
        (updateBatchRemaining db b.id (b.remaining_quantity - t)).batches := by
      intro p hp
      have hpne : p.1.id ≠ b.id := by
        intro he
        exact hnotin (he ▸ List.mem_map_of_mem (fun p => p.1.id) hp)
      have hpmem : p.1 ∈ db.batches := hmem p (List.mem_cons_of_mem _ hp)
      show p.1 ∈ db.batches.map _
      refine List.mem_map.mpr ⟨p.1, hpmem, ?_⟩
      rw [if_neg (by simpa using hpne)]
    have hrec := ih (updateBatchRemaining db b.id (b.remaining_quantity - t))
      hids2 hmem2 hndrest pid
    rw [hrec, getProductStock_updateBatchRemaining hids hb]
    by_cases hpid : b.product_id = pid
    · simp only [List.filter_cons]
      simp [hpid]
      ring
    · simp only [List.filter_cons]
      simp [hpid]

lemma consume_ledger_delta {db : RemoteDB} {pid : Nat} {qty : Int}
    (hids : (db.batches.map (fun b => b.id)).Nodup)
    (herr : (consumeBatchesFIFO db pid qty).1.error = none)
    (hcon : (consumeBatchesFIFO db pid qty).1.consumed = qty) (pid' : Nat) :
    getProductStock ((consumeBatchesFIFO db pid qty).2) pid'
      = getProductStock db pid' - (if pid' = pid then qty else 0) := by
  by_cases h0 : qty ≤ 0
  · have hq : (consumeBatchesFIFO db pid qty).1.consumed = 0 := by
      unfold consumeBatchesFIFO; simp [h0]
    have hdb : (consumeBatchesFIFO db pid qty).2 = db := by
      unfold consumeBatchesFIFO; simp [h0]
    rw [hdb, hcon.symm.trans hq]
    simp
  · have h0' : 0 < qty := by omega
    obtain ⟨htot, _, hsnd⟩ := consume_success_spec h0' herr
    rw [hsnd]
    have hsubl := specTakes_fst_sublist (listOpenBatches db pid) qty
    have hmem : ∀ p ∈ specTakes (listOpenBatches db pid) qty, p.1 ∈ db.batches := by
      intro p hp
      have : p.1 ∈ listOpenBatches db pid :=
        hsubl.subset (List.mem_map_of_mem Prod.fst hp)
      exact (mem_listOpenBatches.mp this).1
    have hpid_all : ∀ p ∈ specTakes (listOpenBatches db pid) qty, p.1.product_id = pid := by
      intro p hp
      have : p.1 ∈ listOpenBatches db pid :=
        hsubl.subset (List.mem_map_of_mem Prod.fst hp)
      exact (mem_listOpenBatches.mp this).2.1
    have hnd : ((specTakes (listOpenBatches db pid) qty).map (fun p => p.1.id)).Nodup := by
      have h1 : (specTakes (listOpenBatches db pid) qty).map (fun p => p.1.id) =
          ((specTakes (listOpenBatches db pid) qty).map Prod.fst).map (fun b => b.id) := by
        rw [List.map_map]; rfl
      rw [h1]
      exact (listOpenBatches_ids_nodup pid hids).sublist (hsubl.map _)
    rw [getProductStock_applyUpdates_takes _ db hids hmem hnd pid']
    by_cases hpp : pid' = pid
    · subst hpp
      have hfil : (specTakes (listOpenBatches db pid') qty).filter
          (fun p => p.1.product_id == pid') = specTakes (listOpenBatches db pid') qty :=
        List.filter_eq_self.mpr (fun p hp => by simpa using hpid_all p hp)
      rw [hfil, if_pos rfl]
      have : ((specTakes (listOpenBatches db pid') qty).map (fun p => p.2)).sum =
          takesTotal (specTakes (listOpenBatches db pid') qty) := rfl
      rw [this, htot]
    · have hfil : (specTakes (listOpenBatches db pid) qty).filter
          (fun p => p.1.product_id == pid') = [] :=
        List.filter_eq_nil_iff.mpr (fun p hp => by
          simp only [beq_iff_eq]
          rw [hpid_all p hp]
          exact fun he => hpp (he.symm))
      rw [hfil, if_neg hpp]
      simp

lemma getProductStock_congr_batches {d1 d2 : RemoteDB} (h : d1.batches = d2.batches)
    (pid : Nat) : getProductStock d1 pid = getProductStock d2 pid := by
  unfold getProductStock
  rw [h]

lemma WF_consume (db : RemoteDB) (pid : Nat) (qty : Int) (h : WF db) :
    WF ((consumeBatchesFIFO db pid qty).2) := by
  obtain ⟨hprod, hids, hnext⟩ := consume_frame db pid qty
  obtain ⟨h1, h2, h3⟩ := h
  refine ⟨?_, ?_, ?_⟩
  · rw [hids]; exact h1
  · rw [hprod]; exact h2
  · rw [hids, hnext]; exact h3

lemma updateProductStockDelta_batches (db : RemoteDB) (pid : Nat) (δ : Int) :
    (updateProductStockDelta db pid δ).1.batches = db.batches := by
  unfold updateProductStockDelta
  cases hf : db.products.find? (fun p => p.id == pid) <;> simp [hf]

lemma updateProductStockDelta_nextBatchId (db : RemoteDB) (pid : Nat) (δ : Int) :
    (updateProductStockDelta db pid δ).1.nextBatchId = db.nextBatchId := by
  unfold updateProductStockDelta
  cases hf : db.products.find? (fun p => p.id == pid) <;> simp [hf]

lemma updateProductStockDelta_product_ids (db : RemoteDB) (pid : Nat) (δ : Int) :
    (updateProductStockDelta db pid δ).1.products.map (fun p => p.id) =
      db.products.map (fun p => p.id) := by
  unfold updateProductStockDelta
  cases hf : db.products.find? (fun p => p.id == pid) with
  | none => simp [hf]
  | some prod =>
    simp only [hf]
    rw [List.map_map]
    refine List.map_congr_left (fun p _ => ?_)
    simp only [Function.comp_apply, beq_iff_eq]
    by_cases hp : p.id = pid
    · rw [if_pos hp]
    · rw [if_neg hp]

lemma WF_updateProductStockDelta (db : RemoteDB) (pid : Nat) (δ : Int) (h : WF db) :
    WF (updateProductStockDelta db pid δ).1 := by
  obtain ⟨h1, h2, h3⟩ := h
  refine ⟨?_, ?_, ?_⟩
  · rw [updateProductStockDelta_batches]; exact h1
  · rw [updateProductStockDelta_product_ids]; exact h2
  · rw [updateProductStockDelta_batches, updateProductStockDelta_nextBatchId]; exact h3

lemma deleteEmptyBatches_ids_sublist (db : RemoteDB) (pid : Nat) :
    List.Sublist ((deleteEmptyBatches db pid).batches.map (fun b => b.id))
      (db.batches.map (fun b => b.id)) :=
  (List.filter_sublist db.batches).map _

lemma WF_deleteEmptyBatches (db : RemoteDB) (pid : Nat) (h : WF db) :
    WF (deleteEmptyBatches db pid) := by
  obtain ⟨h1, h2, h3⟩ := h
  refine ⟨h1.sublist (deleteEmptyBatches_ids_sublist db pid), h2, ?_⟩
  intro i hi
  exact h3 i ((deleteEmptyBatches_ids_sublist db pid).subset hi)

lemma sumRem_filter_delete :
    ∀ (l : List ProductBatch) (pid pid' : Nat),
      (((l.filter (fun b => !(b.product_id == pid && b.remaining_quantity == 0))).filter
          (fun x => x.product_id == pid')).map (fun x => x.remaining_quantity)).sum
        = ((l.filter (fun x => x.product_id == pid')).map (fun x => x.remaining_quantity)).sum := by
  intro l pid pid'
  induction l with
  | nil => rfl
  | cons a rest ih =>
    by_cases hk : (a.product_id == pid && a.remaining_quantity == 0) = true
    · have hne : (!(a.product_id == pid && a.remaining_quantity == 0)) = false := by
        rw [hk]; rfl
      rw [List.filter_cons, hne]
      rw [if_neg (by simp)]
      rw [ih]
      rw [List.filter_cons]
      by_cases h2 : (a.product_id == pid') = true
      · rw [if_pos h2]
        have hrem : a.remaining_quantity = 0 := by
          have h := (Bool.and_eq_true_iff.mp hk).2
          simpa using h
        rw [List.map_cons, List.sum_cons, hrem]
        ring
      · rw [if_neg h2]
    · have hne : (!(a.product_id == pid && a.remaining_quantity == 0)) = true := by
        cases h : (a.product_id == pid && a.remaining_quantity == 0)
        · rfl
        · exact absurd h hk
      rw [List.filter_cons, hne]
      rw [if_pos rfl]
      rw [List.filter_cons, List.filter_cons]
      by_cases h2 : (a.product_id == pid') = true
      · rw [if_pos h2, if_pos h2, List.map_cons, List.sum_cons, List.map_cons, List.sum_cons, ih]
      · rw [if_neg h2, if_neg h2, ih]

lemma getProductStock_deleteEmptyBatches (db : RemoteDB) (pid pid' : Nat) :
    getProductStock (deleteEmptyBatches db pid) pid' = getProductStock db pid' :=
  sumRem_filter_delete db.batches pid pid'

lemma Consistent_deleteEmptyBatches (db : RemoteDB) (pid : Nat) (h : Consistent db) :
    Consistent (deleteEmptyBatches db pid) := by
  intro p hp
  rw [getProductStock_deleteEmptyBatches]
  exact h p hp

lemma product_id_inj {l : List DbProduct} (h : (l.map (fun p => p.id)).Nodup)
    {a b : DbProduct} (ha : a ∈ l) (hb : b ∈ l) (hid : a.id = b.id) : a = b :=
  List.inj_on_of_nodup_map h ha hb hid

lemma consume_none_mismatch_unchanged {db : RemoteDB} {pid : Nat} {qty : Int}
    (herr : (consumeBatchesFIFO db pid qty).1.error = none)
    (hne : (consumeBatchesFIFO db pid qty).1.consumed ≠ qty) :
    (consumeBatchesFIFO db pid qty).2 = db := by
  by_cases h0 : qty ≤ 0
  · unfold consumeBatchesFIFO
    simp [h0]
  · exfalso
    obtain ⟨_, hcons, _⟩ := consume_success_spec (by omega : (0:Int) < qty) herr
    exact hne hcons

lemma saleItem_step_preserves {db : RemoteDB} {it : Nat × Int}
    (hWF : WF db) (hCon : Consistent db)
    (herr : (consumeBatchesFIFO db it.1 it.2).1.error = none)
    (hcons : (consumeBatchesFIFO db it.1 it.2).1.consumed = it.2) :
    WF (updateProductStockDelta (consumeBatchesFIFO db it.1 it.2).2 it.1 (-it.2)).1
    ∧ Consistent (updateProductStockDelta (consumeBatchesFIFO db it.1 it.2).2 it.1 (-it.2)).1 := by
  have hWF1 : WF ((consumeBatchesFIFO db it.1 it.2).2) := WF_consume db it.1 it.2 hWF
  have hprod1 : ((consumeBatchesFIFO db it.1 it.2).2).products = db.products :=
    (consume_frame db it.1 it.2).1
  have hledger := consume_ledger_delta hWF.1 herr hcons
  refine ⟨WF_updateProductStockDelta _ it.1 (-it.2) hWF1, ?_⟩
  intro p' hp'
  rw [getProductStock_congr_batches (updateProductStockDelta_batches _ it.1 (-it.2))]
  cases hf : ((consumeBatchesFIFO db it.1 it.2).2).products.find? (fun p => p.id == it.1) with
  | none =>
    have hres : (updateProductStockDelta ((consumeBatchesFIFO db it.1 it.2).2) it.1 (-it.2)).1
        = (consumeBatchesFIFO db it.1 it.2).2 := by
      unfold updateProductStockDelta
      rw [hf]
    rw [hres] at hp'
    have hnotp := List.find?_eq_none.mp hf
    have hne : p'.id ≠ it.1 := by
      intro he
      exact hnotp p' hp' (by simpa using he)
    have hmem : p' ∈ db.products := hprod1 ▸ hp'
    rw [hledger p'.id, if_neg hne, sub_zero]
    exact hCon p' hmem
  | some prod =>
    have hprodmem : prod ∈ ((consumeBatchesFIFO db it.1 it.2).2).products :=
      List.mem_of_find?_eq_some hf
    have hprodid : prod.id = it.1 := by
      have := List.find?_some hf
      simpa using this
    have hres : (updateProductStockDelta ((consumeBatchesFIFO db it.1 it.2).2) it.1 (-it.2)).1.products
        = ((consumeBatchesFIFO db it.1 it.2).2).products.map
            (fun p => if p.id == it.1 then { p with stock := prod.stock + (-it.2) } else p) := by
      unfold updateProductStockDelta
      rw [hf]
    rw [hres] at hp'
    rcases List.mem_map.mp hp' with ⟨p, hpmem, hpe⟩
    have hpmemdb : p ∈ db.products := hprod1 ▸ hpmem
    by_cases hid : p.id = it.1
    · have hpeq : p = prod :=
        product_id_inj (hprod1 ▸ hWF.2.1) hpmem hprodmem (hid.trans hprodid.symm)
      rw [if_pos (by simpa using hid)] at hpe
      have hid' : p'.id = it.1 := by rw [← hpe]; exact hid
      have hst : p'.stock = prod.stock + (-it.2) := by rw [← hpe]
      rw [hid', hst, hledger it.1, if_pos rfl]
      have hps : prod.stock = getProductStock db it.1 := by
        have := hCon prod (hprod1 ▸ hprodmem)
        rw [this, hprodid]
      rw [hps]
      ring
    · rw [if_neg (by simpa using hid)] at hpe
      rw [← hpe]
      rw [hledger p.id, if_neg hid, sub_zero]
      exact hCon p hpmemdb

lemma getProductStock_append (db : RemoteDB) (nb : ProductBatch) (pid' : Nat) :
    getProductStock { db with batches := db.batches ++ [nb] } pid'
      = getProductStock db pid' + (if nb.product_id = pid' then nb.remaining_quantity else 0) := by
  unfold getProductStock
  simp only [List.filter_append, List.map_append, List.sum_append]
  by_cases h : nb.product_id = pid'
  · simp [h]
  · simp [h]

lemma addStockBatch_preserves (db : RemoteDB) (pid : Nat) (bp q sp : Int)
    (hWF : WF db) (hCon : Consistent db) :
    WF (addStockBatch db pid bp q sp).2 ∧ Consistent (addStockBatch db pid bp q sp).2
    ∧ (∀ pid', getProductStock (addStockBatch db pid bp q sp).2 pid'
        = getProductStock db pid' + (if pid = pid' then q else 0))
    ∧ (∀ p ∈ db.products, p.id = pid →
        { p with stock := p.stock + q } ∈ (addStockBatch db pid bp q sp).2.products) := by
  have hunfold : addStockBatch db pid bp q sp =
      (let nb : ProductBatch :=
        ⟨db.nextBatchId, pid, bp, sp, q, q, db.nextBatchId⟩
       let db1 : RemoteDB :=
        { db with batches := db.batches ++ [nb], nextBatchId := db.nextBatchId + 1 }
       match db.products.find? (fun p => p.id == pid) with
       | none => ((some nb, some .singleRowNotFound), db1)
       | some prod =>
         ((some nb, none),
          { db1 with
            products := db.products.map
              (fun p => if p.id == pid then { p with stock := prod.stock + q } else p) })) := rfl
  have hWF1 : WF ({ db with
      batches := db.batches ++ [⟨db.nextBatchId, pid, bp, sp, q, q, db.nextBatchId⟩],
      nextBatchId := db.nextBatchId + 1 } : RemoteDB) := by
    obtain ⟨h1, h2, h3⟩ := hWF
    refine ⟨?_, h2, ?_⟩
    · show ((db.batches ++
          [(⟨db.nextBatchId, pid, bp, sp, q, q, db.nextBatchId⟩ : ProductBatch)]).map
          (fun b => b.id)).Nodup
      rw [List.map_append]
      rw [List.nodup_append]
      refine ⟨h1, List.nodup_singleton _, ?_⟩
      intro i hi hi2
      rcases List.mem_singleton.mp hi2 with rfl
      exact absurd (h3 _ hi) (lt_irrefl _)
    · intro i hi
      show i < db.nextBatchId + 1
      rw [List.map_append] at hi
      rcases List.mem_append.mp hi with h | h
      · exact Nat.lt_succ_of_lt (h3 i h)
      · rcases List.mem_singleton.mp h with rfl
        exact Nat.lt_succ_self _
  have hstock1 : ∀ pid', getProductStock ({ db with
      batches := db.batches ++ [⟨db.nextBatchId, pid, bp, sp, q, q, db.nextBatchId⟩],
      nextBatchId := db.nextBatchId + 1 } : RemoteDB) pid'
      = getProductStock db pid' + (if pid = pid' then q else 0) := by
    intro pid'
    have h := getProductStock_append
      ({ db with nextBatchId := db.nextBatchId + 1 } : RemoteDB)
      ⟨db.nextBatchId, pid, bp, sp, q, q, db.nextBatchId⟩ pid'
    exact h
  cases hf : db.products.find? (fun p => p.id == pid) with
  | none =>
    have hres : (addStockBatch db pid bp q sp).2 = ({ db with
        batches := db.batches ++ [⟨db.nextBatchId, pid, bp, sp, q, q, db.nextBatchId⟩],
        nextBatchId := db.nextBatchId + 1 } : RemoteDB) := by
      rw [hunfold]
      simp only [hf]
    rw [hres]
    have hnotp := List.find?_eq_none.mp hf
    refine ⟨hWF1, ?_, hstock1, ?_⟩
    · intro p hp
      have hne : pid ≠ p.id := by
        intro he
        exact hnotp p hp (by simpa using he.symm)
      rw [hstock1 p.id, if_neg hne, add_zero]
      exact hCon p hp
    · intro p hp hpid
      exact absurd (by simpa using hpid) (hnotp p hp)
  | some prod =>
    have hprodmem : prod ∈ db.products := List.mem_of_find?_eq_some hf
    have hprodid : prod.id = pid := by
      have := List.find?_some hf
      simpa using this
    have hres : (addStockBatch db pid bp q sp).2 = ({ db with
        batches := db.batches ++ [⟨db.nextBatchId, pid, bp, sp, q, q, db.nextBatchId⟩],
        nextBatchId := db.nextBatchId + 1,
        products := db.products.map
          (fun p => if p.id == pid then { p with stock := prod.stock + q } else p) } : RemoteDB) := by
      rw [hunfold]
      simp only [hf]
    rw [hres]
    have hbeq : (({ db with
        batches := db.batches ++ [⟨db.nextBatchId, pid, bp, sp, q, q, db.nextBatchId⟩],
        nextBatchId := db.nextBatchId + 1,
        products := db.products.map
          (fun p => if p.id == pid then { p with stock := prod.stock + q } else p) } : RemoteDB)).batches
        = (({ db with
        batches := db.batches ++ [⟨db.nextBatchId, pid, bp, sp, q, q, db.nextBatchId⟩],
        nextBatchId := db.nextBatchId + 1 } : RemoteDB)).batches := rfl

    refine ⟨?_, ?_, ?_, ?_⟩
    · obtain ⟨h1, h2, h3⟩ := hWF1
      refine ⟨h1, ?_, h3⟩
      show ((db.products.map
          (fun p => if p.id == pid then { p with stock := prod.stock + q } else p)).map
          (fun p => p.id)).Nodup
      rw [List.map_map]
      have : ((fun p : DbProduct => p.id) ∘
          (fun p => if p.id == pid then { p with stock := prod.stock + q } else p)) =
          (fun p : DbProduct => p.id) := by
        funext p
        simp only [Function.comp_apply, beq_iff_eq]
        by_cases hp : p.id = pid
        · rw [if_pos hp]
        · rw [if_neg hp]
      rw [this]
      exact hWF.2.1
    · intro p' hp'
      rcases List.mem_map.mp hp' with ⟨p, hpmem, hpe⟩
      rw [getProductStock_congr_batches hbeq, hstock1 p'.id]
      by_cases hid : p.id = pid
      · have hpeq : p = prod := product_id_inj hWF.2.1 hpmem hprodmem (hid.trans hprodid.symm)
        rw [if_pos (by simpa using hid)] at hpe
        have hid' : p'.id = pid := by rw [← hpe]; exact hid
        have hst : p'.stock = prod.stock + q := by rw [← hpe]
        rw [hid', if_pos rfl, hst]
        have hps : prod.stock = getProductStock db pid := by
          have := hCon prod hprodmem
          rw [this, hprodid]
        rw [hps]
      · rw [if_neg (by simpa using hid)] at hpe
        rw [← hpe]
        have hne : pid ≠ p.id := fun he => hid he.symm
        rw [if_neg hne, add_zero]
        exact hCon p hpmem
    · intro pid'
      rw [getProductStock_congr_batches hbeq]
      exact hstock1 pid'
    · intro p hp hpid
      have hpeq : p = prod := product_id_inj hWF.2.1 hp hprodmem (hpid.trans hprodid.symm)
      show _ ∈ db.products.map
        (fun x => if x.id == pid then { x with stock := prod.stock + q } else x)
      refine List.mem_map.mpr ⟨p, hp, ?_⟩
      rw [if_pos (by simpa using hpid), ← hpeq]

lemma processLoop_preserves :
    ∀ (items : List (Nat × Int)) (db : RemoteDB) (c r : Int)
      (d : List SaleConsumeDetail), WF db → Consistent db →
      WF (processLoop db items c r d).2 ∧ Consistent (processLoop db items c r d).2 := by
  intro items
  induction items with
  | nil => intro db c r d hWF hCon; exact ⟨hWF, hCon⟩
  | cons it rest ih =>
    intro db c r d hWF hCon
    rcases hc : consumeBatchesFIFO db it.1 it.2 with ⟨res, db1⟩
    by_cases hcond : (res.error.isSome || res.consumed != it.2) = true
    · have hres : (processLoop db (it :: rest) c r d).2 = db1 := by
        simp only [processLoop, hc, hcond, if_true]
      rw [hres]
      have hdb1 : db1 = db := by
        rcases herr : res.error with _ | e
        · have hne : res.consumed ≠ it.2 := by
            rw [herr] at hcond
            simpa using hcond
          have h1 : (consumeBatchesFIFO db it.1 it.2).1.error = none := by rw [hc]; exact herr
          have h2 : (consumeBatchesFIFO db it.1 it.2).1.consumed ≠ it.2 := by rw [hc]; exact hne
          have := consume_none_mismatch_unchanged h1 h2
          rw [hc] at this
          exact this
        · have h1 : (consumeBatchesFIFO db it.1 it.2).1.error = some e := by rw [hc]; exact herr
          have := consumeBatchesFIFO_error_unchanged h1
          rw [hc] at this
          exact this
      rw [hdb1]
      exact ⟨hWF, hCon⟩
    · have herr : res.error = none := by
        cases h : res.error with
        | none => rfl
        | some e => rw [h] at hcond; simp at hcond
      have hconsumed : res.consumed = it.2 := by
        rw [herr] at hcond
        simpa using hcond
      have herr' : (consumeBatchesFIFO db it.1 it.2).1.error = none := by rw [hc]; exact herr
      have hconsumed' : (consumeBatchesFIFO db it.1 it.2).1.consumed = it.2 := by
        rw [hc]; exact hconsumed
      have hstep := saleItem_step_preserves hWF hCon herr' hconsumed'
      rw [hc] at hstep
      rcases hu : updateProductStockDelta db1 it.1 (-it.2) with ⟨db2, updErr⟩
      rw [hu] at hstep
      have hcondf : (res.error.isSome || res.consumed != it.2) = false := by
        cases h : (res.error.isSome || res.consumed != it.2)
        · rfl
        · exact absurd h hcond
      cases updErr with
      | some e =>
        have hres : (processLoop db (it :: rest) c r d).2 = db2 := by
          simp only [processLoop, hc, hcondf, Bool.false_eq_true, if_false, hu]
        rw [hres]
        exact hstep
      | none =>
        have hres : processLoop db (it :: rest) c r d =
            processLoop (deleteEmptyBatches db2 it.1) rest (c + res.cogs) (r + res.revenue)
              (d ++ [⟨it.1, it.2, res.cogs, res.revenue⟩]) := by
          simp only [processLoop, hc, hcondf, Bool.false_eq_true, if_false, hu]
        rw [hres]
        exact ih _ _ _ _ (WF_deleteEmptyBatches db2 it.1 hstep.1)
          (Consistent_deleteEmptyBatches db2 it.1 hstep.2)

lemma processSaleBatches_preserves (db : RemoteDB) (items : List (Nat × Int))
    (hWF : WF db) (hCon : Consistent db) :
    WF (processSaleBatches db items).2 ∧ Consistent (processSaleBatches db items).2 := by
  unfold processSaleBatches
  by_cases h : (items.any fun it => decide (getProductStock db it.1 < it.2)) = true
  · rw [if_pos h]
    exact ⟨hWF, hCon⟩
  · rw [if_neg h]
    exact processLoop_preserves items db 0 0 [] hWF hCon

lemma applyOp_preserves (db : RemoteDB) (op : StockOp) (hWF : WF db) (hCon : Consistent db) :
    WF (applyOp db op) ∧ Consistent (applyOp db op) := by
  cases op with
  | sale items => exact processSaleBatches_preserves db items hWF hCon
  | restock pid bp q sp =>
    have h := addStockBatch_preserves db pid bp q sp hWF hCon
    exact ⟨h.1, h.2.1⟩

lemma applyOps_preserves :
    ∀ (ops : List StockOp) (db : RemoteDB), WF db → Consistent db →
      WF (applyOps db ops) ∧ Consistent (applyOps db ops) := by
  intro ops
  induction ops with
  | nil => intro db hWF hCon; exact ⟨hWF, hCon⟩
  | cons op rest ih =>
    intro db hWF hCon
    have h := applyOp_preserves db op hWF hCon
    exact ih (applyOp db op) h.1 h.2

instance : ∀ db : RemoteDB, Decidable (WF db) := fun db => by
  unfold WF; infer_instance

instance : ∀ db : RemoteDB, Decidable (Consistent db) := fun db => by
  unfold Consistent; infer_instance

/-- C2: starting from a well-formed consistent store, any sequence of sale
(`processSaleBatches`) and restock (`addStockBatch`) operations preserves
the cache-ledger invariant `sum(remaining_quantity) = product.stock` for
every product; moreover each successful FIFO consume of a positive
quantity q decrements the ledger total of exactly that product by q, the
companion cached-stock update decrements the product row by exactly the
delta it is given (touching no batch), each restock adds exactly q to both
the ledger total and the product row, and deleting exhausted batches
changes neither ledger sums nor product rows. -/
theorem stock_cache_ledger_consistent :
    (∀ (db : RemoteDB) (ops : List StockOp), WF db → Consistent db →
        WF (applyOps db ops) ∧ Consistent (applyOps db ops))
    ∧ (∀ (db : RemoteDB) (pid : Nat) (qty : Int), WF db → 0 < qty →
        (consumeBatchesFIFO db pid qty).1.error = none →
        (getProductStock (consumeBatchesFIFO db pid qty).2 pid = getProductStock db pid - qty
          ∧ ∀ pid', pid' ≠ pid →
              getProductStock (consumeBatchesFIFO db pid qty).2 pid' = getProductStock db pid'))
    ∧ (∀ (db : RemoteDB) (pid : Nat) (δ : Int), WF db →
        ∀ p ∈ db.products, p.id = pid →
          (updateProductStockDelta db pid δ).2 = none
          ∧ (updateProductStockDelta db pid δ).1.batches = db.batches
          ∧ { p with stock := p.stock + δ } ∈ (updateProductStockDelta db pid δ).1.products)
    ∧ (∀ (db : RemoteDB) (pid : Nat) (bp q sp : Int), WF db → Consistent db →
        getProductStock (addStockBatch db pid bp q sp).2 pid = getProductStock db pid + q
        ∧ (∀ p ∈ db.products, p.id = pid →
            { p with stock := p.stock + q } ∈ (addStockBatch db pid bp q sp).2.products))
    ∧ (∀ (db : RemoteDB) (pid pid' : Nat),
        getProductStock (deleteEmptyBatches db pid) pid' = getProductStock db pid'
        ∧ (deleteEmptyBatches db pid).products = db.products) := by
  refine ⟨fun db ops hWF hCon => applyOps_preserves ops db hWF hCon, ?_, ?_, ?_, ?_⟩
  · intro db pid qty hWF h0 herr
    have hcons : (consumeBatchesFIFO db pid qty).1.consumed = qty :=
      (consume_success_spec h0 herr).2.1
    have hdelta := consume_ledger_delta hWF.1 herr hcons
    constructor
    · rw [hdelta pid, if_pos rfl]
    · intro pid' hne
      rw [hdelta pid', if_neg hne, sub_zero]
  · intro db pid δ hWF p hp hpid
    have hfind : db.products.find? (fun x => x.id == pid) = some p := by
      cases hf : db.products.find? (fun x => x.id == pid) with
      | none =>
        exact absurd (by simpa using hpid) (List.find?_eq_none.mp hf p hp)
      | some prod =>
        have hprodmem : prod ∈ db.products := List.mem_of_find?_eq_some hf
        have hprodid : prod.id = pid := by
          have := List.find?_some hf
          simpa using this
        rw [product_id_inj hWF.2.1 hprodmem hp (hprodid.trans hpid.symm)]
    refine ⟨?_, updateProductStockDelta_batches db pid δ, ?_⟩
    · unfold updateProductStockDelta
      rw [hfind]
    · have hres : (updateProductStockDelta db pid δ).1.products =
          db.products.map
            (fun x => if x.id == pid then { x with stock := p.stock + δ } else x) := by
        unfold updateProductStockDelta
        rw [hfind]
      rw [hres]
      refine List.mem_map.mpr ⟨p, hp, ?_⟩
      rw [if_pos (by simpa using hpid)]
  · intro db pid bp q sp hWF hCon
    have h := addStockBatch_preserves db pid bp q sp hWF hCon
    constructor
    · have := h.2.2.1 pid
      rw [this, if_pos rfl]
    · exact h.2.2.2
  · intro db pid pid'
    exact ⟨getProductStock_deleteEmptyBatches db pid pid', rfl⟩

/-- Witness for C2 on the example store: restock 4 units then sell 3. -/
theorem stock_cache_ledger_consistent_witness :
    WF (applyOps exDB [StockOp.restock 1 7 4 9, StockOp.sale [(1, 3)]])
    ∧ Consistent (applyOps exDB [StockOp.restock 1 7 4 9, StockOp.sale [(1, 3)]]) :=
  stock_cache_ledger_consistent.1 exDB [StockOp.restock 1 7 4 9, StockOp.sale [(1, 3)]]
    (by decide) (by decide)

/-! ### Stale-syncing recovery (C9) -/

/-- The staleness test as the spec states it: the recorded stamp is
missing (parses to 0) or older than the threshold. -/
def StaleAt (now : Nat) (thresholdMs : Int) (s : QueuedSale) : Prop :=
  s.status_updated_at.getD 0 = 0
  ∨ thresholdMs < (now : Int) - ((s.status_updated_at.getD 0 : Nat) : Int)

instance : ∀ (now : Nat) (thresholdMs : Int) (s : QueuedSale),
    Decidable (StaleAt now thresholdMs s) := fun now thresholdMs s => by
  unfold StaleAt; infer_instance

/-- C9: `resetStaleSyncing` touches no item row, keeps every sale slot,
transitions every `syncing` entry that is stale (stamp missing or older
than the threshold) back to `queued` with a fresh stamp and an error
recorded, is a no-op on every fresh `syncing` entry, and leaves every
entry of any other status untouched. -/
theorem resetStaleSyncing_spec (l : LocalDB) (now : Nat) (T : Int) :
    (resetStaleSyncing l now T).items = l.items
    ∧ (resetStaleSyncing l now T).sales.length = l.sales.length
    ∧ ∀ (i : Nat) (h1 : i < l.sales.length) (h2 : i < (resetStaleSyncing l now T).sales.length),
        ((l.sales.get ⟨i, h1⟩).status = QueuedSaleStatus.syncing →
            StaleAt now T (l.sales.get ⟨i, h1⟩) →
            ((resetStaleSyncing l now T).sales.get ⟨i, h2⟩).status = QueuedSaleStatus.queued
            ∧ ((resetStaleSyncing l now T).sales.get ⟨i, h2⟩).status_updated_at = some now
            ∧ ((resetStaleSyncing l now T).sales.get ⟨i, h2⟩).error ≠ none)
        ∧ ((l.sales.get ⟨i, h1⟩).status = QueuedSaleStatus.syncing →
            ¬ StaleAt now T (l.sales.get ⟨i, h1⟩) →
            (resetStaleSyncing l now T).sales.get ⟨i, h2⟩ = l.sales.get ⟨i, h1⟩)
        ∧ ((l.sales.get ⟨i, h1⟩).status ≠ QueuedSaleStatus.syncing →
            (resetStaleSyncing l now T).sales.get ⟨i, h2⟩ = l.sales.get ⟨i, h1⟩) := by
  refine ⟨rfl, by simp [resetStaleSyncing], ?_⟩
  intro i h1 h2
  have hget : (resetStaleSyncing l now T).sales.get ⟨i, h2⟩ =
      resetEntry now T (l.sales.get ⟨i, h1⟩) := by
    show (l.sales.map (resetEntry now T)).get ⟨i, h2⟩ = _
    simp [List.get_eq_getElem, List.getElem_map]
  refine ⟨?_, ?_, ?_⟩
  · intro hsync hstale
    unfold StaleAt at hstale
    rw [hget]
    unfold resetEntry
    rw [if_pos hsync, if_pos hstale]
    exact ⟨rfl, rfl, by simp⟩
  · intro hsync hstale
    unfold StaleAt at hstale
    rw [hget]
    unfold resetEntry
    rw [if_pos hsync, if_neg hstale]
  · intro hns
    rw [hget]
    unfold resetEntry
    rw [if_neg hns]

/-- A queue with a single stale `syncing` entry (stamped at 1 ms,
observed at 200000 ms with a 120000 ms threshold). -/
def exSale9 : QueuedSale :=
  { id := 1, created_at := 0, subtotal := 10, total := 10,
    payment_method := "cash", cash_received := none, change := none,
    items_count := 1, status := .syncing, error := none,
    status_updated_at := some 1 }

def exLocal9 : LocalDB :=
  { sales := [exSale9], items := [] }

/-- Witness for C9 at the stale entry of the example queue. -/
theorem resetStaleSyncing_spec_witness :
    ((resetStaleSyncing exLocal9 200000 120000).sales.get ⟨0, by decide⟩).status
        = QueuedSaleStatus.queued
    ∧ ((resetStaleSyncing exLocal9 200000 120000).sales.get ⟨0, by decide⟩).status_updated_at
        = some 200000
    ∧ ((resetStaleSyncing exLocal9 200000 120000).sales.get ⟨0, by decide⟩).error ≠ none :=
  ((resetStaleSyncing_spec exLocal9 200000 120000).2.2 0 (by decide) (by decide)).1
    (by decide) (by decide)

/-! ### Synchronization driver lifecycle (C5, C8) -/

lemma syncStep_skip (now : Nat) (st : RemoteDB × LocalDB)
    (row : QueuedSale × List QueuedSaleItem)
    (h1 : row.1.status ≠ .queued) (h2 : row.1.status ≠ .failed) :
    syncStep none now st row = st := by
  unfold syncStep
  simp only [Option.isSome_none, Bool.false_and, Bool.false_eq_true, if_false]
  rw [if_pos ⟨h1, h2⟩]

lemma syncStep_fail (now : Nat) (st : RemoteDB × LocalDB)
    (row : QueuedSale × List QueuedSaleItem) (e : DbErr)
    (helig : row.1.status = .queued ∨ row.1.status = .failed)
    (herr : (processSaleBatches st.1
        (row.2.map (fun it => (it.product_id, it.quantity)))).1.error = some e) :
    syncStep none now st row =
      ((processSaleBatches st.1 (row.2.map (fun it => (it.product_id, it.quantity)))).2,
        setSaleStatus (setSaleStatus st.2 row.1.id .syncing none now) row.1.id .failed
          (some (DbErr.message e)) now) := by
  unfold syncStep
  simp only [Option.isSome_none, Bool.false_and, Bool.false_eq_true, if_false]
  rw [if_neg (by
    intro h
    rcases helig with h1 | h1
    · exact h.1 h1
    · exact h.2 h1)]
  rcases hp : processSaleBatches st.1
      (row.2.map (fun it => (it.product_id, it.quantity))) with ⟨res, rem1⟩
  rw [hp] at herr
  simp only at herr
  simp only [hp, herr]

lemma syncStep_success (now : Nat) (st : RemoteDB × LocalDB)
    (row : QueuedSale × List QueuedSaleItem)
    (helig : row.1.status = .queued ∨ row.1.status = .failed)
    (herr : (processSaleBatches st.1
        (row.2.map (fun it => (it.product_id, it.quantity)))).1.error = none) :
    syncStep none now st row =
      ({ (processSaleBatches st.1 (row.2.map (fun it => (it.product_id, it.quantity)))).2 with
          sales := (processSaleBatches st.1
              (row.2.map (fun it => (it.product_id, it.quantity)))).2.sales ++
            [{ id := (processSaleBatches st.1
                  (row.2.map (fun it => (it.product_id, it.quantity)))).2.nextSaleId
               total := row.1.total
               payment_method := row.1.payment_method
               cash_received := row.1.cash_received
               change := row.1.change
               cogs := (processSaleBatches st.1
                  (row.2.map (fun it => (it.product_id, it.quantity)))).1.cogs
               items_count :=
                 if row.1.items_count = 0 then (row.2.map (fun it => it.quantity)).sum
                 else row.1.items_count }]
          sale_items := (processSaleBatches st.1
              (row.2.map (fun it => (it.product_id, it.quantity)))).2.sale_items ++
            row.2.map (fun it =>
              { sale_id := (processSaleBatches st.1
                    (row.2.map (fun it => (it.product_id, it.quantity)))).2.nextSaleId
                product_id := it.product_id
                product_name := it.product_name
                category := it.category
                unit_price := it.unit_price
                quantity := it.quantity
                line_total := it.line_total
                line_cogs := (((processSaleBatches st.1
                      (row.2.map (fun it => (it.product_id, it.quantity)))).1.details.find?
                    (fun d => d.productId == it.product_id)).map (fun d => d.cogs)).getD 0 })
          nextSaleId := (processSaleBatches st.1
              (row.2.map (fun it => (it.product_id, it.quantity)))).2.nextSaleId + 1 },
       deleteQueuedSale
         (setSaleStatus (setSaleStatus st.2 row.1.id .syncing none now) row.1.id .done none now)
         row.1.id) := by
  unfold syncStep
  simp only [Option.isSome_none, Bool.false_and, Bool.false_eq_true, if_false]
  rw [if_neg (by
    intro h
    rcases helig with h1 | h1
    · exact h.1 h1
    · exact h.2 h1)]
  rcases hp : processSaleBatches st.1
      (row.2.map (fun it => (it.product_id, it.quantity))) with ⟨res, rem1⟩
  rw [hp] at herr
  simp only at herr
  simp only [hp, herr]

lemma mem_setSaleStatus_cases {l : LocalDB} {id : Nat} {stt : QueuedSaleStatus}
    {err : Option String} {now : Nat} {s : QueuedSale}
    (h : s ∈ (setSaleStatus l id stt err now).sales) :
    (s.status = stt ∧ s.id = id) ∨ s ∈ l.sales := by
  rcases List.mem_map.mp h with ⟨s0, hs0, he⟩
  by_cases hid : s0.id = id
  · left
    rw [← he, if_pos (by simpa using hid)]
    exact ⟨rfl, hid⟩
  · right
    rw [← he, if_neg (by simpa using hid)]
    exact hs0

lemma syncStep_no_new_done (now : Nat) (st : RemoteDB × LocalDB)
    (row : QueuedSale × List QueuedSaleItem) :
    ∀ s ∈ (syncStep none now st row).2.sales, s.status = QueuedSaleStatus.done →
      s ∈ st.2.sales := by
  by_cases helig : row.1.status ≠ .queued ∧ row.1.status ≠ .failed
  · rw [syncStep_skip now st row helig.1 helig.2]
    exact fun s hs _ => hs
  · have helig' : row.1.status = .queued ∨ row.1.status = .failed := by
      by_cases h1 : row.1.status = .queued
      · exact Or.inl h1
      · by_cases h2 : row.1.status = .failed
        · exact Or.inr h2
        · exact absurd ⟨h1, h2⟩ helig
    cases herr : (processSaleBatches st.1
        (row.2.map (fun it => (it.product_id, it.quantity)))).1.error with
    | some e =>
      rw [syncStep_fail now st row e helig' herr]
      intro s hs hdone
      rcases mem_setSaleStatus_cases hs with ⟨hstat, _⟩ | hs1
      · rw [hdone] at hstat
        exact absurd hstat.symm (by decide)
      rcases mem_setSaleStatus_cases hs1 with ⟨hstat, _⟩ | hs2
      · rw [hdone] at hstat
        exact absurd hstat.symm (by decide)
      · exact hs2
    | none =>
      rw [syncStep_success now st row helig' herr]
      intro s hs hdone
      rcases List.mem_filter.mp hs with ⟨hmem, hkeep⟩
      rcases mem_setSaleStatus_cases hmem with ⟨_, hid⟩ | hs1
      · exfalso
        rw [hid] at hkeep
        simp at hkeep
      rcases mem_setSaleStatus_cases hs1 with ⟨hstat, _⟩ | hs2
      · rw [hdone] at hstat
        exact absurd hstat.symm (by decide)
      · exact hs2

lemma sync_fold_no_new_done :
    ∀ (rows : List (QueuedSale × List QueuedSaleItem)) (st : RemoteDB × LocalDB) (now : Nat),
      ∀ s ∈ (rows.foldl (syncStep none now) st).2.sales, s.status = QueuedSaleStatus.done →
        s ∈ st.2.sales := by
  intro rows
  induction rows with
  | nil => intro st now s hs _; exact hs
  | cons row rest ih =>
    intro st now s hs hdone
    have hmem := ih (syncStep none now st row) now s (by simpa using hs) hdone
    exact syncStep_no_new_done now st row s hmem hdone

/-- C5: during a synchronization pass (a fold of the step over the queue
snapshot), a step on an entry whose status is not queued/failed is the
identity; an eligible entry is first marked syncing and, on FIFO
consumption failure, marked failed with the error message while the pass
goes on; on success it is marked syncing, then done, then immediately
deleted (so its id is absent from the stored queue); and a whole pass
never leaves a sale stored with status done that was not already stored
as done before the pass. -/
theorem syncQueuedSales_lifecycle :
    (∀ (now : Nat) (st : RemoteDB × LocalDB) (row : QueuedSale × List QueuedSaleItem),
        row.1.status ≠ QueuedSaleStatus.queued → row.1.status ≠ QueuedSaleStatus.failed →
        syncStep none now st row = st)
    ∧ (∀ (now : Nat) (st : RemoteDB × LocalDB) (row : QueuedSale × List QueuedSaleItem)
          (e : DbErr),
        (row.1.status = QueuedSaleStatus.queued ∨ row.1.status = QueuedSaleStatus.failed) →
        (processSaleBatches st.1
            (row.2.map (fun it => (it.product_id, it.quantity)))).1.error = some e →
        syncStep none now st row =
          ((processSaleBatches st.1 (row.2.map (fun it => (it.product_id, it.quantity)))).2,
            setSaleStatus (setSaleStatus st.2 row.1.id .syncing none now) row.1.id .failed
              (some (DbErr.message e)) now))
    ∧ (∀ (now : Nat) (st : RemoteDB × LocalDB) (row : QueuedSale × List QueuedSaleItem),
        (row.1.status = QueuedSaleStatus.queued ∨ row.1.status = QueuedSaleStatus.failed) →
        (processSaleBatches st.1
            (row.2.map (fun it => (it.product_id, it.quantity)))).1.error = none →
        (syncStep none now st row).2 =
          deleteQueuedSale
            (setSaleStatus (setSaleStatus st.2 row.1.id .syncing none now)
              row.1.id .done none now)
            row.1.id
        ∧ ∀ s ∈ (syncStep none now st row).2.sales, s.id ≠ row.1.id)
    ∧ (∀ (remote : RemoteDB) (loc : LocalDB) (now : Nat),
        ∀ s ∈ (syncQueuedSales remote loc none now).2.sales,
          s.status = QueuedSaleStatus.done → s ∈ loc.sales)
    ∧ (∀ (remote : RemoteDB) (loc : LocalDB) (target : Option Nat) (now : Nat),
        syncQueuedSales remote loc target now =
          (listQueuedSales loc).foldl (syncStep target now) (remote, loc)) := by
  refine ⟨syncStep_skip, syncStep_fail, ?_, ?_, fun _ _ _ _ => rfl⟩
  · intro now st row helig herr
    rw [syncStep_success now st row helig herr]
    constructor
    · rfl
    · intro s hs
      rcases List.mem_filter.mp hs with ⟨_, hkeep⟩
      intro he
      rw [he] at hkeep
      simp at hkeep
  · intro remote loc now s hs hdone
    exact sync_fold_no_new_done (listQueuedSales loc) (remote, loc) now s hs hdone

/-- The remote and queue states of the worked synchronization example: a
single queued sale of 2 units of product 1 snapshotted at unit price 99,
against a ledger whose open batch costs 10 a unit. -/
def exItem8 : QueuedSaleItem :=
  { id := 1, sale_id := 1, product_id := 1, product_name := "A", category := none,
    unit_price := 99, quantity := 2, line_total := 198 }

def exSale8 : QueuedSale :=
  { id := 1, created_at := 0, subtotal := 198, total := 198,
    payment_method := "cash", cash_received := none, change := none,
    items_count := 2, status := .queued, error := none, status_updated_at := some 0 }

def exLocal8 : LocalDB := { sales := [exSale8], items := [exItem8] }

def exRemoteA : RemoteDB :=
  { products := [⟨1, 15, 5⟩], batches := [⟨1, 1, 10, 15, 5, 5, 1⟩],
    sales := [], sale_items := [], nextBatchId := 2, nextSaleId := 10 }

/-- The same remote state with the batch cost changed from 10 to 20. -/
def exRemoteB : RemoteDB :=
  { products := [⟨1, 15, 5⟩], batches := [⟨1, 1, 20, 15, 5, 5, 1⟩],
    sales := [], sale_items := [], nextBatchId := 2, nextSaleId := 10 }

/-- Witness for C5 at the worked success example: the queued sale is
marked syncing, then done, then deleted, and its id is gone from the
stored queue. -/
theorem syncQueuedSales_lifecycle_witness :
    (syncStep none 5 (exRemoteA, exLocal8) (exSale8, [exItem8])).2 =
      deleteQueuedSale
        (setSaleStatus (setSaleStatus exLocal8 exSale8.id .syncing none 5)
          exSale8.id .done none 5)
        exSale8.id
    ∧ ∀ s ∈ (syncStep none 5 (exRemoteA, exLocal8) (exSale8, [exItem8])).2.sales,
        s.id ≠ exSale8.id :=
  syncQueuedSales_lifecycle.2.2.1 5 (exRemoteA, exLocal8) (exSale8, [exItem8])
    (Or.inl rfl) (by decide)

lemma applyUpdates_sales (us : List (Nat × Int)) : ∀ (db : RemoteDB),
    (applyUpdates db us).sales = db.sales := by
  induction us with
  | nil => intro db; rfl
  | cons u rest ih => intro db; exact ih _

lemma applyUpdates_sale_items (us : List (Nat × Int)) : ∀ (db : RemoteDB),
    (applyUpdates db us).sale_items = db.sale_items := by
  induction us with
  | nil => intro db; rfl
  | cons u rest ih => intro db; exact ih _

lemma applyUpdates_nextSaleId (us : List (Nat × Int)) : ∀ (db : RemoteDB),
    (applyUpdates db us).nextSaleId = db.nextSaleId := by
  induction us with
  | nil => intro db; rfl
  | cons u rest ih => intro db; exact ih _

lemma consume_frame_sale (db : RemoteDB) (pid : Nat) (qty : Int) :
    (consumeBatchesFIFO db pid qty).2.sales = db.sales
    ∧ (consumeBatchesFIFO db pid qty).2.sale_items = db.sale_items
    ∧ (consumeBatchesFIFO db pid qty).2.nextSaleId = db.nextSaleId := by
  unfold consumeBatchesFIFO
  by_cases h0 : qty ≤ 0
  · simp [h0]
  · simp only [if_neg h0]
    by_cases h1 : 0 < (consumeWalk (listOpenBatches db pid) qty 0 0 []).1
    · simp [h1]
    · simp [h1, applyUpdates_sales, applyUpdates_sale_items, applyUpdates_nextSaleId]

lemma updateProductStockDelta_frame_sale (db : RemoteDB) (pid : Nat) (δ : Int) :
    (updateProductStockDelta db pid δ).1.sales = db.sales
    ∧ (updateProductStockDelta db pid δ).1.sale_items = db.sale_items
    ∧ (updateProductStockDelta db pid δ).1.nextSaleId = db.nextSaleId := by
  unfold updateProductStockDelta
  cases hf : db.products.find? (fun p => p.id == pid) <;> simp [hf]

lemma processLoop_frame_sale :
    ∀ (items : List (Nat × Int)) (db : RemoteDB) (c r : Int) (d : List SaleConsumeDetail),
      (processLoop db items c r d).2.sales = db.sales
      ∧ (processLoop db items c r d).2.sale_items = db.sale_items
      ∧ (processLoop db items c r d).2.nextSaleId = db.nextSaleId := by
  intro items
  induction items with
  | nil => intro db c r d; exact ⟨rfl, rfl, rfl⟩
  | cons it rest ih =>
    intro db c r d
    rcases hc : consumeBatchesFIFO db it.1 it.2 with ⟨res, db1⟩
    have hcf := consume_frame_sale db it.1 it.2
    rw [hc] at hcf
    by_cases hcond : (res.error.isSome || res.consumed != it.2) = true
    · have hres : (processLoop db (it :: rest) c r d).2 = db1 := by
        simp only [processLoop, hc, hcond, if_true]
      rw [hres]
      exact hcf
    · have hcondf : (res.error.isSome || res.consumed != it.2) = false := by
        cases h : (res.error.isSome || res.consumed != it.2)
        · rfl
        · exact absurd h hcond
      rcases hu : updateProductStockDelta db1 it.1 (-it.2) with ⟨db2, updErr⟩
      have huf := updateProductStockDelta_frame_sale db1 it.1 (-it.2)
      rw [hu] at huf
      cases updErr with
      | some e =>
        have hres : (processLoop db (it :: rest) c r d).2 = db2 := by
          simp only [processLoop, hc, hcondf, Bool.false_eq_true, if_false, hu]
        rw [hres]
        exact ⟨huf.1.trans hcf.1, (huf.2.1).trans hcf.2.1, (huf.2.2).trans hcf.2.2⟩
      | none =>
        have hres : processLoop db (it :: rest) c r d =
            processLoop (deleteEmptyBatches db2 it.1) rest (c + res.cogs) (r + res.revenue)
              (d ++ [⟨it.1, it.2, res.cogs, res.revenue⟩]) := by
          simp only [processLoop, hc, hcondf, Bool.false_eq_true, if_false, hu]
        rw [hres]
        have hrec := ih (deleteEmptyBatches db2 it.1) (c + res.cogs) (r + res.revenue)
          (d ++ [⟨it.1, it.2, res.cogs, res.revenue⟩])
        have hdel : (deleteEmptyBatches db2 it.1).sales = db2.sales := rfl
        have hdel2 : (deleteEmptyBatches db2 it.1).sale_items = db2.sale_items := rfl
        have hdel3 : (deleteEmptyBatches db2 it.1).nextSaleId = db2.nextSaleId := rfl
        exact ⟨hrec.1.trans (hdel.trans (huf.1.trans hcf.1)),
          hrec.2.1.trans (hdel2.trans (huf.2.1.trans hcf.2.1)),
          hrec.2.2.trans (hdel3.trans (huf.2.2.trans hcf.2.2))⟩

lemma processSaleBatches_frame_sale (db : RemoteDB) (items : List (Nat × Int)) :
    (processSaleBatches db items).2.sales = db.sales
    ∧ (processSaleBatches db items).2.sale_items = db.sale_items
    ∧ (processSaleBatches db items).2.nextSaleId = db.nextSaleId := by
  unfold processSaleBatches
  by_cases h : (items.any fun it => decide (getProductStock db it.1 < it.2)) = true
  · rw [if_pos h]
    exact ⟨rfl, rfl, rfl⟩
  · rw [if_neg h]
    exact processLoop_frame_sale items db 0 0 []

/-- C8 amended: when the driver persists a queued sale after a successful
fresh consumption, the appended line-item rows carry the enqueue-time
snapshot for `unit_price` and `line_total` (and the product name/category
snapshot), while `line_cogs` is NOT snapshotted: it is looked up in the
per-item details of the fresh FIFO consumption (no cost is snapshotted at
enqueue time at all). -/
theorem syncStep_line_items_snapshot (now : Nat) (st : RemoteDB × LocalDB)
    (row : QueuedSale × List QueuedSaleItem)
    (helig : row.1.status = QueuedSaleStatus.queued ∨ row.1.status = QueuedSaleStatus.failed)
    (herr : (processSaleBatches st.1
        (row.2.map (fun it => (it.product_id, it.quantity)))).1.error = none) :
    (syncStep none now st row).1.sale_items =
      st.1.sale_items ++
        row.2.map (fun it =>
          { sale_id := (processSaleBatches st.1
                (row.2.map (fun it => (it.product_id, it.quantity)))).2.nextSaleId
            product_id := it.product_id
            product_name := it.product_name
            category := it.category
            unit_price := it.unit_price
            quantity := it.quantity
            line_total := it.line_total
            line_cogs := (((processSaleBatches st.1
                  (row.2.map (fun it => (it.product_id, it.quantity)))).1.details.find?
                (fun d => d.productId == it.product_id)).map (fun d => d.cogs)).getD 0 }) := by
  rw [syncStep_success now st row helig herr]
  show (processSaleBatches st.1
      (row.2.map (fun it => (it.product_id, it.quantity)))).2.sale_items ++ _ =
    st.1.sale_items ++ _
  rw [(processSaleBatches_frame_sale st.1
      (row.2.map (fun it => (it.product_id, it.quantity)))).2.1]

/-- C8 counterexample: two stores identical except for the batch cost
(10 vs 20) sync the same queued sale; the persisted line_cogs follows the
CURRENT ledger cost (20 vs 40), so the cost is re-derived from the fresh
consumption, not an enqueue-time snapshot, while the persisted unit price
stays the snapshotted 99 in both. -/
theorem syncStep_line_cogs_fresh_cex :
    ((syncQueuedSales exRemoteA exLocal8 none 5).1.sale_items.map (fun r => r.line_cogs) = [20])
    ∧ ((syncQueuedSales exRemoteB exLocal8 none 5).1.sale_items.map (fun r => r.line_cogs) = [40])
    ∧ exRemoteB = mapBoughtPrice exRemoteA (fun _ => 20)
    ∧ ((syncQueuedSales exRemoteA exLocal8 none 5).1.sale_items.map (fun r => r.unit_price) = [99])
    ∧ ((syncQueuedSales exRemoteB exLocal8 none 5).1.sale_items.map (fun r => r.unit_price) = [99]) := by
  exact ⟨by decide, by decide, by decide, by decide, by decide⟩

/-- Witness for C8 amended at the worked success example. -/
theorem syncStep_line_items_snapshot_witness :
    (syncStep none 5 (exRemoteA, exLocal8) (exSale8, [exItem8])).1.sale_items =
      exRemoteA.sale_items ++
        [exItem8].map (fun it =>
          { sale_id := (processSaleBatches exRemoteA
                ([exItem8].map (fun it => (it.product_id, it.quantity)))).2.nextSaleId
            product_id := it.product_id
            product_name := it.product_name
            category := it.category
            unit_price := it.unit_price
            quantity := it.quantity
            line_total := it.line_total
            line_cogs := (((processSaleBatches exRemoteA
                  ([exItem8].map (fun it => (it.product_id, it.quantity)))).1.details.find?
                (fun d => d.productId == it.product_id)).map (fun d => d.cogs)).getD 0 }) :=
  syncStep_line_items_snapshot 5 (exRemoteA, exLocal8) (exSale8, [exItem8])
    (Or.inl rfl) (by decide)

/-- Witness for C7 amended at the invalid input (quantity 0, bought price
-1). -/
theorem createProductBatch_creates_unvalidated_witness :
    (createProductBatch exDB ⟨1, -1, 15, 0, none⟩).1.2 = none
    ∧ ∃ nb : ProductBatch,
        (createProductBatch exDB ⟨1, -1, 15, 0, none⟩).1.1 = some nb
        ∧ nb.remaining_quantity = (⟨1, -1, 15, 0, none⟩ : NewBatchInput).quantity
        ∧ nb.quantity = (⟨1, -1, 15, 0, none⟩ : NewBatchInput).quantity
        ∧ nb.product_id = (⟨1, -1, 15, 0, none⟩ : NewBatchInput).product_id
        ∧ nb.bought_price = (⟨1, -1, 15, 0, none⟩ : NewBatchInput).bought_price
        ∧ (createProductBatch exDB ⟨1, -1, 15, 0, none⟩).2.batches =
            exDB.batches ++ [nb] :=
  createProductBatch_creates_unvalidated exDB ⟨1, -1, 15, 0, none⟩ rfl
